import Mathlib

/-!
# OneFlow: actor message bus, s0-to-s0 boxing and ring consistency check

A shallow embedding of

* `oneflow/core/actor/actor_message_bus.cpp` (`ActorMsgBus`),
* `oneflow/core/boxing/naive_s0_to_s0_boxing.cpp` (`RawCheckCclS0ToS0`, `CclS0ToS0`),
* `oneflow/core/functional/impl/slice_boxing.cpp` (`EagerS0ToS0Functor`),
* `oneflow/api/python/utils/tensor_utils.cpp`
  (`GetAllBroadcastNdSbp`, `CheckVecEqual`, `DataConsistencyCheck`),
* `oneflow/core/autograd/gradient_funcs/add_n.cpp` (`AddN`),
* `oneflow/user/kernels/to_contiguous_kernel.h` (`ToContiguousUtilBase`),
* `oneflow/core/graph/chain_graph.h` (the declarations of `ChainGraph`; its construction is
  modelled from the specification),

followed by theorems about these definitions.

Conventions. `int64_t` values are `Int`; an `int64_t` that the code does arithmetic on is
reduced with `wrapInt64`. A `Maybe<T>` is an `Except Error T`; a failed glog `CHECK` (process
abort) is an `Except Fatal _`. Calls into collaborators that are not part of the modelled files
(thread manager, transport, op interpreter) are recorded as effects or taken from an
environment record.
-/

namespace oneflow

/-! ## Actor message bus -/

/-- The value an `int64_t` holds after a computation whose mathematical result is `x`
(two's complement, 64 bits). -/
def wrapInt64 (x : Int) : Int := (x + 2 ^ 63) % 2 ^ 64 - 2 ^ 63

/-- Modelled from the spec: `ActorMsg` (declared in `actor_message.h`, which is not among the
sources). Only what `ActorMsgBus` reads or writes is kept: the destination actor, the register
descriptor id, the result of `IsDataRegstMsgToConsumer()`, the transport token of the register
(`regst()->comm_net_token()`), the sequence number and the attached user data. -/
structure ActorMsg where
  src_actor_id : Int
  dst_actor_id : Int
  regst_desc_id : Int
  IsDataRegstMsgToConsumer : Bool
  comm_net_token : Nat
  comm_net_sequence_number : Int
  user_data : List Nat
  deriving DecidableEq, Repr

/-- Source: `ActorMsg::set_comm_net_sequence_number`. -/
def ActorMsg.set_comm_net_sequence_number (msg : ActorMsg) (n : Int) : ActorMsg :=
  { msg with comm_net_sequence_number := n }

/-- Modelled from the spec: `ActorMsg::AddUserData(size, data)` stores the `size` bytes at
`data` in the message ("serializes message + payload"). -/
def ActorMsg.AddUserData (msg : ActorMsg) (serial_data : List Nat) : ActorMsg :=
  { msg with user_data := serial_data }

/-- A channel key: `std::make_pair(msg.regst_desc_id(), msg.dst_actor_id())`. -/
abbrev ChannelKey := Int × Int

/-- The key under which `SendMsg` counts a message. -/
def ActorMsg.channel (msg : ActorMsg) : ChannelKey := (msg.regst_desc_id, msg.dst_actor_id)

/-- The member `regst_desc_id_dst_actor_id2comm_net_sequence_number_`, a
`std::map<std::pair<int64_t, int64_t>, int64_t>`, as an association list with unique keys. -/
abbrev SeqMap := List (ChannelKey × Int)

/-- The value `m[k]` reads: the stored counter, or the value-initialised `0` that
`operator[]` inserts for a key that is not present. -/
def SeqMap.read : SeqMap → ChannelKey → Int
  | [], _ => 0
  | (k', v) :: rest, k => if k' = k then v else SeqMap.read rest k

/-- Assignment through the reference returned by `m[k]`. -/
def SeqMap.write : SeqMap → ChannelKey → Int → SeqMap
  | [], k, v => [(k, v)]
  | (k', v') :: rest, k, v =>
    if k' = k then (k, v) :: rest else (k', v') :: SeqMap.write rest k v

/-- What the bus asks of its collaborators, in program order. -/
inductive BusEffect where
  /-- The call `Global<ThreadMgr>::Get()->GetThrd(thrd_id)->EnqueueActorMsg(msg)` -/
  | EnqueueActorMsg (thrd_id : Int) (msg : ActorMsg)
  /-- The call `Global<CommNet>::Get()->SerialTokenToData(token, &size)` -/
  | SerialTokenToData (token : Nat)
  /-- The call `Global<CommNet>::Get()->SendMsg(dst_machine_id, addr, size)` where `addr` points to
  `msg` and `size` is `sizeof(msg)`. -/
  | CommNetSendMsg (dst_machine_id : Int) (msg : ActorMsg)
  deriving DecidableEq, Repr

/-- A failed `CHECK_EQ(lhs, rhs)`: the process aborts. -/
inductive Fatal where
  | CheckEqFailed (lhs rhs : Int)
  deriving DecidableEq, Repr

/-- The global objects `ActorMsgBus` consults: `IDMgr`, `GlobalProcessCtx` and the
(de)serialisation routines of `CommNet`. -/
structure BusEnv where
  MachineId4ActorId : Int → Int
  ThrdId4ActorId : Int → Int
  Rank : Int
  SerialTokenToData : Nat → List Nat
  DeserialDataToActorMsg : List Nat → ActorMsg

/-- Source: `ActorMsgBus::SendMsgWithoutCommNet`. The `CHECK_EQ` aborts the process before
anything is enqueued; `GetThrd` and `EnqueueActorMsg` belong to the thread manager and are
recorded as an effect. -/
def SendMsgWithoutCommNet (env : BusEnv) (msg : ActorMsg) : Except Fatal (List BusEffect) :=
  if env.MachineId4ActorId msg.dst_actor_id = env.Rank then
    let thrd_id := env.ThrdId4ActorId msg.dst_actor_id
    .ok [.EnqueueActorMsg thrd_id msg]
  else
    .error (.CheckEqFailed (env.MachineId4ActorId msg.dst_actor_id) env.Rank)

/-- Source: `ActorMsgBus::HandleRecvData`; `data` is the received buffer (`size` is its length). -/
def HandleRecvData (env : BusEnv) (data : List Nat) : Except Fatal (List BusEffect) :=
  let new_msg := env.DeserialDataToActorMsg data
  SendMsgWithoutCommNet env new_msg

/-- Source: `ActorMsgBus::SendMsg`: the counter map after the call and the effects of the
call. The block under the mutex reads the counter of the channel through `operator[]` and
adds 1 to it; the address and size passed to `CommNet::SendMsg` are those of the message object,
so the effect records the message itself. -/
def SendMsg (env : BusEnv) (seq : SeqMap) (msg : ActorMsg) :
    Except Fatal (SeqMap × List BusEffect) :=
  let dst_machine_id := env.MachineId4ActorId msg.dst_actor_id
  if dst_machine_id = env.Rank then
    match SendMsgWithoutCommNet env msg with
    | .ok effs => .ok (seq, effs)
    | .error e => .error e
  else
    if msg.IsDataRegstMsgToConsumer then
      let comm_net_sequence := seq.read msg.channel
      let seq1 := seq.write msg.channel (wrapInt64 (comm_net_sequence + 1))
      let new_msg := msg.set_comm_net_sequence_number comm_net_sequence
      let token := new_msg.comm_net_token
      let serial_data := env.SerialTokenToData token
      let new_msg := new_msg.AddUserData serial_data
      .ok (seq1, [.SerialTokenToData token, .CommNetSendMsg dst_machine_id new_msg])
    else
      .ok (seq, [.CommNetSendMsg dst_machine_id msg])

/-- A sequence of `SendMsg` calls on one bus: the final counter map and all effects in order. -/
def SendMsgs (env : BusEnv) : SeqMap → List ActorMsg → Except Fatal (SeqMap × List BusEffect)
  | seq, [] => .ok (seq, [])
  | seq, msg :: rest =>
    match SendMsg env seq msg with
    | .error e => .error e
    | .ok (seq1, effs) =>
      match SendMsgs env seq1 rest with
      | .error e => .error e
      | .ok (seq2, effs2) => .ok (seq2, effs ++ effs2)

/-- Is `msg` a data message for a remote machine, i.e. does `SendMsg` number it? -/
def isRemoteData (env : BusEnv) (msg : ActorMsg) : Bool :=
  decide (env.MachineId4ActorId msg.dst_actor_id ≠ env.Rank) && msg.IsDataRegstMsgToConsumer

/-- The number of messages of `msgs` that `SendMsg` numbers on channel `k`. -/
def remoteDataCount (env : BusEnv) (k : ChannelKey) (msgs : List ActorMsg) : Nat :=
  (msgs.filter (fun m => isRemoteData env m && decide (m.channel = k))).length

/-- The sequence numbers of the data messages of channel `k` handed to the transport, in the
order of the `CommNet::SendMsg` calls. -/
def sentSequenceNumbers (k : ChannelKey) : List BusEffect → List Int
  | [] => []
  | .CommNetSendMsg _ m :: rest =>
    if m.IsDataRegstMsgToConsumer && decide (m.channel = k) then
      m.comm_net_sequence_number :: sentSequenceNumbers k rest
    else sentSequenceNumbers k rest
  | _ :: rest => sentSequenceNumbers k rest

/-! ## Layout descriptors and the s0-to-s0 boxing strategy -/

/-- A failed `Maybe<T>`: the check-failed error of `CHECK_OR_RETURN` and `CHECK_EQ_OR_RETURN`
(with the text streamed into it, or the checked expression), the timeout of a transport wait,
and any other error a collaborator reports. -/
inductive Error where
  | CheckFailedError (msg : String)
  | TimeoutError
  | RuntimeError (msg : String)
  deriving DecidableEq, Repr

/-- Modelled from the spec: `cfg::SbpParallel` (generated from `sbp_parallel.proto`, not among
the sources): "each one of Split(axis), Broadcast, PartialSum". -/
inductive SbpParallel where
  | split_parallel (axis : Int)
  | broadcast_parallel
  | partial_sum_parallel
  deriving DecidableEq, Repr

/-- Source: `sbp_parallel->has_split_parallel()`. -/
def SbpParallel.has_split_parallel : SbpParallel → Bool
  | .split_parallel _ => true
  | _ => false

/-- Source: `sbp_parallel->split_parallel().axis()`; protobuf returns the default sub-message, whose
axis is 0, when the directive is not a split. -/
def SbpParallel.split_axis : SbpParallel → Int
  | .split_parallel axis => axis
  | _ => 0

/-- Source: `cfg::NdSbp`: the repeated field `sbp_parallel`. -/
structure NdSbp where
  sbp_parallel : List SbpParallel
  deriving DecidableEq, Repr

/-- Source: `nd_sbp->sbp_parallel_size()`. -/
def NdSbp.sbp_parallel_size (n : NdSbp) : Nat := n.sbp_parallel.length

/-- Source: `DeviceType`. -/
inductive DeviceType where
  | kInvalidDevice
  | kCPU
  | kGPU
  deriving DecidableEq, Repr

/-- Source: `ParallelDesc` (a placement), reduced to what the modelled code reads: the device tag, the
device type and the ranks it spans. -/
structure ParallelDesc where
  device_tag : String
  device_type : DeviceType
  ranks : List Nat
  deriving DecidableEq, Repr

/-- Source: `PlacedNdSbp`: a layout descriptor together with its placement. -/
structure PlacedNdSbp where
  nd_sbp : NdSbp
  placement : ParallelDesc
  deriving DecidableEq, Repr

/-- Source: `IsSplitSbp` of `naive_s0_to_s0_boxing.cpp`. The body compares the axis with the literal 0;
the parameter `axis` is not read. -/
def IsSplitSbp (sbp_parallel : SbpParallel) (_axis : Int) : Bool :=
  sbp_parallel.has_split_parallel && decide (sbp_parallel.split_axis = 0)

/-- Source: `RawCheckCclS0ToS0`. -/
def RawCheckCclS0ToS0 (in_ out : PlacedNdSbp) : Except Error Unit :=
  if hin : in_.nd_sbp.sbp_parallel_size = 1 then
    if hout : out.nd_sbp.sbp_parallel_size = 1 then
      if IsSplitSbp (in_.nd_sbp.sbp_parallel.get ⟨0, by
          simp only [NdSbp.sbp_parallel_size] at hin; omega⟩) 0 then
        if IsSplitSbp (out.nd_sbp.sbp_parallel.get ⟨0, by
            simp only [NdSbp.sbp_parallel_size] at hout; omega⟩) 0 then
          if in_.placement.device_tag = out.placement.device_tag then
            if in_.placement.device_type = DeviceType.kCPU then
              .ok ()
            else .error (.CheckFailedError "in->placement()->device_type() == DeviceType::kCPU")
          else .error (.CheckFailedError
            "in->placement()->device_tag() == out->placement()->device_tag()")
        else .error (.CheckFailedError "IsSplitSbp(out->nd_sbp()->sbp_parallel(0), 0)")
      else .error (.CheckFailedError "IsSplitSbp(in->nd_sbp()->sbp_parallel(0), 0)")
    else .error (.CheckFailedError "out->nd_sbp()->sbp_parallel_size() == 1")
  else .error (.CheckFailedError "in->nd_sbp()->sbp_parallel_size() == 1")

/-- Source: `Shape`: the dimension vector. -/
abbrev Shape := List Int

/-- Source: `DataType`, the element types of `POD_DATA_TYPE_SEQ`. -/
inductive DataType where
  | kChar | kFloat | kDouble | kInt8 | kInt32 | kInt64 | kUInt8
  deriving DecidableEq, Repr

/-- A local (mirrored) tensor: the shard held by the current rank. -/
structure MirroredTensor where
  is_eager : Bool
  is_cuda : Bool
  shape : Shape
  dtype : DataType
  data : List Int
  deriving DecidableEq, Repr

/-- Source: `one::Tensor`: either a local tensor or a consistent (distributed) tensor, which carries
its layout descriptor, its placement and, when available, the shard of the current rank. -/
inductive Tensor where
  | Mirrored (t : MirroredTensor)
  | Consistent (nd_sbp : NdSbp) (parallel_desc : ParallelDesc)
      (cur_rank_phy_tensor : Option MirroredTensor) (shape : Shape) (dtype : DataType)
      (is_eager : Bool)
  deriving DecidableEq, Repr

/-- Source: `tensor->is_local()`. -/
def Tensor.is_local : Tensor → Bool
  | .Mirrored _ => true
  | .Consistent .. => false

/-- Source: `tensor->is_eager()`. -/
def Tensor.is_eager : Tensor → Bool
  | .Mirrored t => t.is_eager
  | .Consistent _ _ _ _ _ e => e

/-- Source: `tensor->is_cuda()`. -/
def Tensor.is_cuda : Tensor → Bool
  | .Mirrored t => t.is_cuda
  | .Consistent _ p _ _ _ _ => decide (p.device_type = DeviceType.kGPU)

/-- Source: `tensor->shape()`. -/
def Tensor.shape : Tensor → Shape
  | .Mirrored t => t.shape
  | .Consistent _ _ _ s _ _ => s

/-- Source: `tensor->dtype()`. -/
def Tensor.dtype : Tensor → DataType
  | .Mirrored t => t.dtype
  | .Consistent _ _ _ _ d _ => d

/-- Source: `tensor->nd_sbp()`: only a consistent tensor has one. -/
def Tensor.nd_sbp : Tensor → Except Error NdSbp
  | .Mirrored _ => .error (.RuntimeError "nd_sbp of a local tensor")
  | .Consistent n _ _ _ _ _ => .ok n

/-- Source: `tensor->parallel_desc()`: only a consistent tensor has one. -/
def Tensor.parallel_desc : Tensor → Except Error ParallelDesc
  | .Mirrored _ => .error (.RuntimeError "parallel_desc of a local tensor")
  | .Consistent _ p _ _ _ _ => .ok p

/-- Source: `tensor->cur_rank_phy_tensor()`. -/
def Tensor.cur_rank_phy_tensor : Tensor → Except Error Tensor
  | .Mirrored _ => .error (.RuntimeError "cur_rank_phy_tensor of a local tensor")
  | .Consistent _ _ none _ _ _ => .error (.RuntimeError "no physical tensor on this rank")
  | .Consistent _ _ (some t) _ _ _ => .ok (.Mirrored t)

/-- The op expression `EagerS0ToS0` of `slice_boxing.cpp` builds. -/
structure UserOpExpr where
  op_type_name : String
  op_name : String
  in_parallel_conf : ParallelDesc
  out_parallel_conf : ParallelDesc
  shape : Shape
  deriving DecidableEq, Repr

/-- The collaborators of the boxing executor: `UniqueStr` and the op interpreter
(`OpInterpUtil::Dispatch<Tensor>`), both of which may fail. -/
structure BoxingEnv where
  UniqueStr : String → Except Error String
  Dispatch : UserOpExpr → Tensor → Except Error Tensor

/-- Source: `EagerS0ToS0` of `slice_boxing.cpp` (the op-expression builder; its memoised form
`CachedEagerS0ToS0OpExpr` returns the same expression). -/
def EagerS0ToS0OpExpr (env : BoxingEnv) (in_parallel_desc out_parallel_desc : ParallelDesc)
    (shape : Shape) : Except Error UserOpExpr :=
  match env.UniqueStr "eager_s0_to_s0" with
  | .error e => .error e
  | .ok op_name =>
    .ok { op_type_name := "eager_s0_to_s0", op_name := op_name,
          in_parallel_conf := in_parallel_desc, out_parallel_conf := out_parallel_desc,
          shape := shape }

/-- Source: `EagerS0ToS0Functor::operator()`, reached as `one::functional::EagerS0ToS0`. -/
def EagerS0ToS0 (env : BoxingEnv) (x : Tensor) (in_parallel_desc out_parallel_desc : ParallelDesc)
    (shape : Shape) : Except Error Tensor :=
  if ¬ x.is_local then .error (.CheckFailedError "x->is_local()")
  else if ¬ x.is_eager then .error (.CheckFailedError "x->is_eager()")
  else if x.is_cuda then .error (.CheckFailedError "!x->is_cuda()")
  else
    match EagerS0ToS0OpExpr env in_parallel_desc out_parallel_desc shape with
    | .error e => .error e
    | .ok op_expr => env.Dispatch op_expr x

/-- Modelled from the spec: `GetSbpList` (`nd_sbp.h`, not among the sources): the directives
of a layout descriptor, in order. -/
def GetSbpList (nd_sbp : NdSbp) : Except Error (List SbpParallel) :=
  .ok nd_sbp.sbp_parallel

/-- Modelled from the spec: `one::functional::LocalToConsistent` (not among the sources):
"re-wraps the result as a distributed tensor under the destination layout". The local tensor
becomes the current rank's shard of a consistent tensor with the given placement, directives,
logical shape and element type; a tensor that is not local cannot be re-wrapped. -/
def LocalToConsistent (x : Tensor) (parallel_desc : ParallelDesc)
    (sbp_parallels : List SbpParallel) (shape : Shape) (dtype : DataType) :
    Except Error Tensor :=
  match x with
  | .Mirrored t => .ok (.Consistent ⟨sbp_parallels⟩ parallel_desc (some t) shape dtype t.is_eager)
  | .Consistent .. => .error (.CheckFailedError "x->is_local()")

/-- Source: `CclS0ToS0`, the executor registered as "ccl-s0-to-s0". -/
def CclS0ToS0 (env : BoxingEnv) (tensor : Tensor) (in_ out : PlacedNdSbp) :
    Except Error Tensor :=
  match tensor.nd_sbp with
  | .error e => .error e
  | .ok tensor_nd_sbp =>
    if tensor_nd_sbp ≠ in_.nd_sbp then
      .error (.CheckFailedError "tensor_nd_sbp == in->nd_sbp()")
    else
      match tensor.parallel_desc with
      | .error e => .error e
      | .ok tensor_placement =>
        if tensor_placement ≠ in_.placement then
          .error (.CheckFailedError "tensor_placement == in->placement()")
        else
          match tensor.cur_rank_phy_tensor with
          | .error e => .error e
          | .ok local_tensor =>
            match EagerS0ToS0 env local_tensor tensor_placement out.placement tensor.shape with
            | .error e => .error e
            | .ok local_tensor =>
              match GetSbpList out.nd_sbp with
              | .error e => .error e
              | .ok sbp_list =>
                LocalToConsistent local_tensor out.placement sbp_list tensor.shape tensor.dtype

/-- The functions `CclS0ToS0` calls once its two checks have passed. -/
inductive BoxingCall where
  | EagerS0ToS0
  | GetSbpList
  | LocalToConsistent
  deriving DecidableEq, Repr

/-- The three functions `CclS0ToS0` calls, as the executor sees them: each returns a
`Maybe`. -/
structure BoxingOps where
  EagerS0ToS0 : Tensor → ParallelDesc → ParallelDesc → Shape → Except Error Tensor
  GetSbpList : NdSbp → Except Error (List SbpParallel)
  LocalToConsistent :
    Tensor → ParallelDesc → List SbpParallel → Shape → DataType → Except Error Tensor

/-- The functions `CclS0ToS0` reaches in this development. -/
def BoxingEnv.ops (env : BoxingEnv) : BoxingOps :=
  { EagerS0ToS0 := EagerS0ToS0 env, GetSbpList := GetSbpList,
    LocalToConsistent := LocalToConsistent }

/-- Source: `CclS0ToS0`, with the functions it calls taken from `ops`: the calls made, in
order, and the result. -/
def CclS0ToS0.traced (ops : BoxingOps) (tensor : Tensor) (in_ out : PlacedNdSbp) :
    List BoxingCall × Except Error Tensor :=
  match tensor.nd_sbp with
  | .error e => ([], .error e)
  | .ok tensor_nd_sbp =>
    if tensor_nd_sbp ≠ in_.nd_sbp then
      ([], .error (.CheckFailedError "tensor_nd_sbp == in->nd_sbp()"))
    else
      match tensor.parallel_desc with
      | .error e => ([], .error e)
      | .ok tensor_placement =>
        if tensor_placement ≠ in_.placement then
          ([], .error (.CheckFailedError "tensor_placement == in->placement()"))
        else
          match tensor.cur_rank_phy_tensor with
          | .error e => ([], .error e)
          | .ok local_tensor =>
            match ops.EagerS0ToS0 local_tensor tensor_placement out.placement tensor.shape with
            | .error e => ([.EagerS0ToS0], .error e)
            | .ok local_tensor =>
              match ops.GetSbpList out.nd_sbp with
              | .error e => ([.EagerS0ToS0, .GetSbpList], .error e)
              | .ok sbp_list =>
                ([.EagerS0ToS0, .GetSbpList, .LocalToConsistent],
                  ops.LocalToConsistent local_tensor out.placement sbp_list tensor.shape
                    tensor.dtype)

/-! ## Tensor utilities: all-broadcast layout and the ring consistency check -/

/-- The loop of `GetAllBroadcastNdSbp`: each of the `remaining` iterations appends one
broadcast directive (`mutable_sbp_parallel()->Add()->mutable_broadcast_parallel()`). -/
def GetAllBroadcastNdSbp.loop : Nat → NdSbp → NdSbp
  | 0, broadcast_nd_sbp => broadcast_nd_sbp
  | remaining + 1, broadcast_nd_sbp =>
    GetAllBroadcastNdSbp.loop remaining
      ⟨broadcast_nd_sbp.sbp_parallel ++ [SbpParallel.broadcast_parallel]⟩

/-- Source: `GetAllBroadcastNdSbp`. -/
def GetAllBroadcastNdSbp (ndim : Nat) : Except Error NdSbp :=
  .ok (GetAllBroadcastNdSbp.loop ndim ⟨[]⟩)

/-- The table of a function decorated with `ThreadLocal`: one per thread, empty when the thread
starts. -/
abbrev ThreadLocalTable (κ ρ : Type) := List (κ × ρ)

/-- Modelled from the spec: the `ThreadLocal` decorator of `decorator.h` (not among the
sources), a per-thread memo table: a key that is in the table yields the stored result,
any other key is computed with `func` and stored. -/
def ThreadLocal {κ ρ : Type} [DecidableEq κ] (func : κ → ρ) (table : ThreadLocalTable κ ρ)
    (key : κ) : ρ × ThreadLocalTable κ ρ :=
  match table.lookup key with
  | some r => (r, table)
  | none => (func key, (key, func key) :: table)

/-- Source: `CachedGetAllBroadcastNdSbp = DECORATE(&GetAllBroadcastNdSbp, ThreadLocal)`. -/
def CachedGetAllBroadcastNdSbp (table : ThreadLocalTable Nat (Except Error NdSbp)) (ndim : Nat) :
    Except Error NdSbp × ThreadLocalTable Nat (Except Error NdSbp) :=
  ThreadLocal GetAllBroadcastNdSbp table ndim

/-- The table of a thread after it has called `CachedGetAllBroadcastNdSbp` with each of
`calls`, in order. -/
def CachedGetAllBroadcastNdSbp.tableAfter :
    ThreadLocalTable Nat (Except Error NdSbp) → List Nat →
      ThreadLocalTable Nat (Except Error NdSbp)
  | table, [] => table
  | table, ndim :: calls =>
    CachedGetAllBroadcastNdSbp.tableAfter (CachedGetAllBroadcastNdSbp table ndim).2 calls

/-- The operator `!=` of the integer element types of `POD_DATA_TYPE_SEQ` (`int8_t`, `int32_t`,
`int64_t`, `uint8_t`, `char`): inequality of values. -/
def integerNe (a b : Int) : Bool := decide (a ≠ b)

/-- A `double`, given by its 64 bits as a number below `2 ^ 64` (IEEE 754 binary64: a sign bit,
11 exponent bits, 52 fraction bits). The value-initialised `double` is `+0.0`, all bits zero. -/
structure Double where
  bits : Nat
  deriving DecidableEq, Repr, Inhabited

/-- Is the value a NaN: the exponent bits are all ones and the fraction is not zero. -/
def Double.isNaN (x : Double) : Bool :=
  (x.bits / 2 ^ 52) % 2 ^ 11 == 2047 && x.bits % 2 ^ 52 != 0

/-- Is the value `+0.0` or `-0.0`: every bit but the sign is zero. -/
def Double.isZero (x : Double) : Bool := x.bits % 2 ^ 63 == 0

/-- The operator `!=` of `double`: a NaN differs from every value, itself included; the two
zeros do not differ; any other two values differ exactly when their bits do. -/
def Double.ne (a b : Double) : Bool :=
  a.isNaN || b.isNaN || (a.bits != b.bits && !(a.isZero && b.isZero))

/-- The loop of `CheckVecEqual` at index `i` with `remaining = size - i` iterations to go.
A pointer is modelled by the function from an offset to the element stored there; `ne` is the
operator `!=` of the element type `T`. -/
def CheckVecEqual.loop {T : Type} (ne : T → T → Bool) (in0 in1 : Nat → T) : Nat → Nat → Bool
  | _, 0 => true
  | i, remaining + 1 =>
    if ne (in0 i) (in1 i) then false else CheckVecEqual.loop ne in0 in1 (i + 1) remaining

/-- Source: `CheckVecEqual<T>`; the template is instantiated at every element type of
`POD_DATA_TYPE_SEQ`, integer and floating, and compares with the operator `!=` of that type,
given here as `ne`. -/
def CheckVecEqual {T : Type} (ne : T → T → Bool) (size : Nat) (in0 in1 : Nat → T) : Bool :=
  CheckVecEqual.loop ne in0 in1 0 size

/-- The pointer to the first element of a contiguous buffer. Offsets past the end read the
value-initialised element; the modelled code reads only offsets below `elem_cnt`. -/
def bufferPtr {T : Type} [Inhabited T] (buf : List T) : Nat → T :=
  fun i => buf.getD i default

/-- The calls `DataConsistencyCheck` makes into the transport layer. -/
inductive TransportCall where
  | SendToNextRankInRing
  | ReceiveFromPrevRankInRing
  | WaitUntilDoneOrTimeout
  deriving DecidableEq, Repr

/-- The transport layer as one call of `DataConsistencyCheck` sees it: the results of
`RankGroup::New`, `TransportToken::NewTransportToken` and of the three ring operations, and the
elements found in the receive buffer once the wait has returned. -/
structure TransportEnv (T : Type) where
  RankGroupNew : ParallelDesc → Except Error (List Nat)
  NewTransportToken : Except Error Nat
  SendToNextRankInRing : List Nat → Nat → List T → Except Error Unit
  ReceiveFromPrevRankInRing : List Nat → Nat → Except Error Unit
  WaitUntilDoneOrTimeout : Except Error Unit
  recv_buffer : List T

/-- Source: `DataConsistencyCheck<T>`: the calls made into the transport layer, in order, and the
result. `array` is the contiguous buffer of the numpy array (`buf.size` is its length) and `ne`
the operator `!=` of the element type. -/
def DataConsistencyCheck {T : Type} [Inhabited T] (ne : T → T → Bool) (env : TransportEnv T)
    (array : List T) (elem_cnt : Nat) (placement : ParallelDesc) :
    List TransportCall × Except Error Unit :=
  match env.RankGroupNew placement with
  | .error e => ([], .error e)
  | .ok rank_group =>
    match env.NewTransportToken with
    | .error e => ([], .error e)
    | .ok transport_token =>
      let buf_ptr := bufferPtr array
      let array_size := array.length
      if array_size ≠ elem_cnt then
        ([], .error (.CheckFailedError "array_size == elem_cnt"))
      else
        let recv_ptr := bufferPtr env.recv_buffer
        match env.SendToNextRankInRing rank_group transport_token array with
        | .error e => ([.SendToNextRankInRing], .error e)
        | .ok _ =>
          match env.ReceiveFromPrevRankInRing rank_group transport_token with
          | .error e => ([.SendToNextRankInRing, .ReceiveFromPrevRankInRing], .error e)
          | .ok _ =>
            match env.WaitUntilDoneOrTimeout with
            | .error e =>
              ([.SendToNextRankInRing, .ReceiveFromPrevRankInRing, .WaitUntilDoneOrTimeout],
                .error e)
            | .ok _ =>
              if CheckVecEqual ne elem_cnt buf_ptr recv_ptr then
                ([.SendToNextRankInRing, .ReceiveFromPrevRankInRing, .WaitUntilDoneOrTimeout],
                  .ok ())
              else
                ([.SendToNextRankInRing, .ReceiveFromPrevRankInRing, .WaitUntilDoneOrTimeout],
                  .error (.CheckFailedError
                    "Each rank must have same input sequence or numpy array"))

/-- Modelled from the spec: the ring of a rank group of `n` ranks ("each participant sends to
its successor and receives from its predecessor in a logical ring"): the rank whose buffer
rank `i` receives. -/
def prevRankInRing (n i : Nat) : Nat := (i + n - 1) % n

/-- Modelled from the spec: the transport layer seen by rank `i` of a ring in which rank `r`
holds the buffer `bufs[r]`, when the exchange completes: every operation succeeds and the
receive buffer holds what the predecessor sent, i.e. the predecessor's local buffer. -/
def ringTransportEnv {T : Type} (bufs : List (List T)) (i : Nat) : TransportEnv T where
  RankGroupNew := fun placement => .ok placement.ranks
  NewTransportToken := .ok 0
  SendToNextRankInRing := fun _ _ _ => .ok ()
  ReceiveFromPrevRankInRing := fun _ _ => .ok ()
  WaitUntilDoneOrTimeout := .ok ()
  recv_buffer := bufs.getD (prevRankInRing bufs.length i) []

/-- The result of `DataConsistencyCheck` on rank `i` of the ring `bufs`. -/
def ringDataConsistencyCheck {T : Type} [Inhabited T] (ne : T → T → Bool)
    (bufs : List (List T)) (elem_cnt : Nat) (placement : ParallelDesc) (i : Nat) :
    Except Error Unit :=
  (DataConsistencyCheck ne (ringTransportEnv bufs i) (bufs.getD i []) elem_cnt placement).2

/-! ## The gradient function of add_n -/

/-- The value an `int32_t` holds after a conversion or computation whose mathematical result
is `x`. -/
def wrapInt32 (x : Int) : Int := (x + 2 ^ 31) % 2 ^ 32 - 2 ^ 31

/-- The value of a `size_t` converted from the integer `x`. -/
def toSizeT (x : Int) : Nat := (x % 2 ^ 64).toNat

/-- A tensor as the gradient function sees it: an identity and the flag `requires_grad()`. -/
structure GradTensor where
  id : Nat
  requires_grad : Bool
  deriving DecidableEq, Repr

/-- Source: `TensorTuple`, a vector of shared pointers to tensors; `none` is the null pointer
(an entry that is not set). -/
abbrev TensorTuple := List (Option GradTensor)

/-- Source: `AddNCaptureState`. -/
structure AddNCaptureState where
  input_num : Int
  requires_grad : List Bool
  deriving DecidableEq, Repr

/-- The effect of `std::vector::resize(n)`: the first `n` elements are kept, missing ones are
value-initialised. -/
def vectorResize {α : Type} (v : List α) (n : Nat) (init : α) : List α :=
  v.take n ++ List.replicate (n - v.length) init

/-- The loop of `AddN::Capture` from index `i` with `remaining` iterations to go:
`ctx->requires_grad[i] = inputs.at(i)->requires_grad()`. -/
def AddN.Capture.loop (inputs : List GradTensor) : Nat → Nat → List Bool → List Bool
  | _, 0, requires_grad => requires_grad
  | i, remaining + 1, requires_grad =>
    match inputs.get? i with
    | none => requires_grad
    | some t => AddN.Capture.loop inputs (i + 1) remaining (requires_grad.set i t.requires_grad)

/-- Source: `AddN::Capture`; the input tensors are not null. The state after the call (the call
itself returns Ok). -/
def AddN.Capture (ctx : AddNCaptureState) (inputs : List GradTensor) : AddNCaptureState :=
  let input_num := wrapInt32 inputs.length
  let requires_grad := vectorResize ctx.requires_grad inputs.length false
  { ctx with input_num := input_num,
             requires_grad := AddN.Capture.loop inputs 0 inputs.length requires_grad }

/-- The loop of `AddN::Apply` from index `i` with `remaining` iterations to go;
`requires_grad.at(i)` and `in_grads->at(i)` are bounds-checked. -/
def AddN.Apply.loop (ctx : AddNCaptureState) (out_grads : TensorTuple) :
    Nat → Nat → TensorTuple → Except Error TensorTuple
  | _, 0, in_grads => .ok in_grads
  | i, remaining + 1, in_grads =>
    match ctx.requires_grad.get? i with
    | none => .error (.RuntimeError "requires_grad.at(i): out of range")
    | some true =>
      if i < in_grads.length then
        match out_grads.get? 0 with
        | none => .error (.RuntimeError "out_grads.at(0): out of range")
        | some g => AddN.Apply.loop ctx out_grads (i + 1) remaining (in_grads.set i g)
      else .error (.RuntimeError "in_grads->at(i): out of range")
    | some false => AddN.Apply.loop ctx out_grads (i + 1) remaining in_grads

/-- Source: `AddN::Apply`: the tuple `*in_grads` after the call, or the error. The loop runs
while `i < ctx->input_num` in `int`, so not at all when `input_num` is negative. -/
def AddN.Apply (ctx : AddNCaptureState) (out_grads : TensorTuple) (in_grads : TensorTuple) :
    Except Error TensorTuple :=
  if out_grads.length ≠ 1 then .error (.CheckFailedError "out_grads.size() == 1")
  else
    let in_grads := vectorResize in_grads (toSizeT ctx.input_num) none
    AddN.Apply.loop ctx out_grads 0 ctx.input_num.toNat in_grads

/-! ## The traversal state of the to-contiguous kernel -/

/-- Source: the members of `ToContiguousUtilBase` (with the `in_shape` and `in_stride` of
`ToContiguousUtilParam`); all of them are `int64_t` or vectors of `int64_t`. -/
structure ToContiguousUtilBase where
  in_shape : List Int
  in_stride : List Int
  block_size : Int
  element_count : Int
  contiguous_dim : Int
  out_stride : List Int
  index : List Int
  in_offset : Int
  out_offset : Int
  deriving DecidableEq, Repr

/-- The loop of the constructor of `ToContiguousUtilBase` on `(block_size, element_count,
out_stride)`, with the loop variable at `i - 1` (so `0` stands for the exit value `-1`). -/
def ToContiguousUtilBase.init_loop (in_shape in_stride : List Int) :
    Nat → Int × Int × List Int → Int × Int × List Int
  | 0, st => st
  | i + 1, (block_size, element_count, out_stride) =>
    let out_stride := out_stride.set i element_count
    let element_count := wrapInt64 (element_count * in_shape.getD i 0)
    if block_size = in_stride.getD i 0 then
      ToContiguousUtilBase.init_loop in_shape in_stride i
        (wrapInt64 (block_size * in_shape.getD i 0), element_count, out_stride)
    else
      ToContiguousUtilBase.init_loop in_shape in_stride i (block_size, element_count, out_stride)

/-- Source: the constructor of `ToContiguousUtilBase`: `out_stride` and `index` start as
vectors of `NumAxes()` zeros. -/
def ToContiguousUtilBase.new (in_shape in_stride : List Int) : ToContiguousUtilBase :=
  let contiguous_dim : Int := (in_shape.length : Int) - 1
  let st := ToContiguousUtilBase.init_loop in_shape in_stride (contiguous_dim + 1).toNat
    (1, 1, List.replicate in_shape.length 0)
  { in_shape := in_shape, in_stride := in_stride, block_size := st.1, element_count := st.2.1,
    contiguous_dim := contiguous_dim, out_stride := st.2.2,
    index := List.replicate (contiguous_dim + 1).toNat 0, in_offset := 0, out_offset := 0 }

/-- The loop of `finish_stride` with the loop variable at `i - 1` (so `0` stands for `-1`): the
state when the loop is left and whether it was left with `i == -1`. -/
def ToContiguousUtilBase.finish_stride_loop :
    Nat → ToContiguousUtilBase → ToContiguousUtilBase × Bool
  | 0, s => (s, true)
  | i + 1, s =>
    if s.index.getD i 0 = wrapInt64 (s.in_shape.getD i 0 - 1) then
      ToContiguousUtilBase.finish_stride_loop i
        { s with
          in_offset := wrapInt64 (s.in_offset - wrapInt64 (s.in_stride.getD i 0 * s.index.getD i 0))
          out_offset :=
            wrapInt64 (s.out_offset - wrapInt64 (s.out_stride.getD i 0 * s.index.getD i 0))
          index := s.index.set i 0 }
    else
      ({ s with
          index := s.index.set i (wrapInt64 (s.index.getD i 0 + 1))
          in_offset := wrapInt64 (s.in_offset + s.in_stride.getD i 0)
          out_offset := wrapInt64 (s.out_offset + s.out_stride.getD i 0) }, false)

/-- Source: `ToContiguousUtilBase::finish_stride`: the state after the call and the value
returned. -/
def ToContiguousUtilBase.finish_stride (s : ToContiguousUtilBase) :
    ToContiguousUtilBase × Bool :=
  ToContiguousUtilBase.finish_stride_loop (s.contiguous_dim + 1).toNat s

/-- The state after `k` calls of `finish_stride`. -/
def ToContiguousUtilBase.after_calls : Nat → ToContiguousUtilBase → ToContiguousUtilBase
  | 0, s => s
  | k + 1, s => (ToContiguousUtilBase.after_calls k s).finish_stride.1

/-- The value returned by call number `c` (counted from 1) of `finish_stride`. -/
def ToContiguousUtilBase.call_result (c : Nat) (s : ToContiguousUtilBase) : Bool :=
  (ToContiguousUtilBase.after_calls (c - 1) s).finish_stride.2

/-- The sum of `index[i] * stride[i]` over the axes. -/
def dotIndex : List Int → List Int → Int
  | a :: idx, w :: stride => a * w + dotIndex idx stride
  | _, _ => 0

/-- The row-major multi-index of `k` in `shape`: on axis `i` it is
`(k / product of shape[j] for j > i) mod shape[i]`. -/
def rowMajorIndex (shape : List Int) (k : Int) : List Int :=
  (List.range shape.length).map
    (fun i => (k / (shape.drop (i + 1)).prod) % shape.getD i 1)

/-- The strides of the contiguous row-major layout of `shape`: on axis `i` the product of
`shape[j]` for `j > i`. -/
def rowMajorStride (shape : List Int) : List Int :=
  (List.range shape.length).map (fun i => (shape.drop (i + 1)).prod)

/-- The least axis `m` such that `in_stride[j]` is the product of `shape[l]` for `l > j` for
every axis `j >= m`, found by scanning the axes `i - 1, ..., 0` downwards while they are laid
out contiguously (`m` is the rank when even the last axis is not). -/
def contiguousFrom (shape in_stride : List Int) : Nat → Nat
  | 0 => 0
  | i + 1 =>
    if in_stride.getD i 0 = (shape.drop (i + 1)).prod then contiguousFrom shape in_stride i
    else i + 1

/-- The element count of the longest trailing group of axes that is laid out contiguously in
the input: the product of `shape[j]` for `j >= m`. -/
def contiguousBlockSize (shape in_stride : List Int) : Int :=
  (shape.drop (contiguousFrom shape in_stride shape.length)).prod

/-! ## The chain graph -/

/-- A task node of the task graph, reduced to what the chain graph reads: its identity (the
pointer `TaskNode*`), the machine that owns it and its stream area (area id and global work
stream id). -/
structure TaskNode where
  task_id : Nat
  machine_id : Int
  area_id : Int
  global_work_stream_id : Int
  deriving DecidableEq, Repr

/-- The task graph: its nodes in topological (discovery) order and its edges, each from the
identity of a producer to the identity of a consumer. -/
structure TaskGraph where
  nodes : List TaskNode
  edges : List (Nat × Nat)
  deriving DecidableEq, Repr

/-- Source: `struct Chain` of `chain_graph.h`; a bitset is given by the list of the task
identities whose bit is set. -/
structure Chain where
  nodes : List TaskNode
  ancestors : List Nat
  ancestors_and_this : List Nat
  stream_area_id : Int × Int
  deriving DecidableEq, Repr

/-- Source: `ChainNode` of `chain_graph.h`: the task nodes given to the constructor and the
chain id, `-1` until it is set. -/
structure ChainNode where
  task_nodes : List TaskNode
  chain_id : Int
  deriving DecidableEq, Repr

/-- Source: `ChainNode::TaskNodes`. -/
def ChainNode.TaskNodes (c : ChainNode) : List TaskNode := c.task_nodes

/-- Source: the members of `ChainGraph` of `chain_graph.h`: the chain nodes with the edges
between them (by position) and the map `task_node2chain_node_`, keyed by the identity of the
task node. -/
structure ChainGraph where
  chain_nodes : List ChainNode
  chain_edges : List (Nat × Nat)
  task_node2chain_node_ : List (Nat × ChainNode)
  deriving DecidableEq, Repr

/-- Source: `ChainGraph::ChainNode4TaskNode`, `task_node2chain_node_.at(task_node)`; `none`
when the map has no entry for the task node. -/
def ChainGraph.ChainNode4TaskNode (g : ChainGraph) (task_node : TaskNode) : Option ChainNode :=
  g.task_node2chain_node_.lookup task_node.task_id

/-- Modelled from the spec: one step of `ChainGraph::GroupTaskNodesByMachine` (declared in
`chain_graph.h`, defined in `chain_graph.cpp`, which is not among the sources): the task node
is appended to the tasks of its machine ("group task nodes by owning rank"). -/
def GroupTaskNodesByMachine.push :
    List (Int × List TaskNode) → TaskNode → List (Int × List TaskNode)
  | [], t => [(t.machine_id, [t])]
  | (m, ts) :: rest, t =>
    if m = t.machine_id then (m, ts ++ [t]) :: rest
    else (m, ts) :: GroupTaskNodesByMachine.push rest t

/-- Modelled from the spec: `ChainGraph::GroupTaskNodesByMachine`, the map `machine2tasks`. -/
def GroupTaskNodesByMachine (task_gph : TaskGraph) : List (Int × List TaskNode) :=
  task_gph.nodes.foldl GroupTaskNodesByMachine.push []

/-- Modelled from the spec: the ancestors of every task node ("the transitive closure of
must-execute-before over the fine-grained task graph"), computed along the topological order:
the ancestors of a node are its direct predecessors and their ancestors. -/
def TaskGraph.ancestorTable (task_gph : TaskGraph) : List (Nat × List Nat) :=
  task_gph.nodes.foldl
    (fun table t =>
      let preds := (task_gph.edges.filter (fun e => e.2 = t.task_id)).map (fun e => e.1)
      let anc := (preds.flatMap (fun q => q :: (table.lookup q).getD [])).dedup
      table ++ [(t.task_id, anc)])
    []

/-- Modelled from the spec: the chain a task node starts as ("a task node with no edges becomes
a singleton chain"; every node is a singleton chain before any merge). -/
def Chain.singleton (table : List (Nat × List Nat)) (t : TaskNode) : Chain :=
  let anc := (table.lookup t.task_id).getD []
  { nodes := [t], ancestors := anc, ancestors_and_this := (t.task_id :: anc).dedup,
    stream_area_id := (t.area_id, t.global_work_stream_id) }

/-- Modelled from the spec: the chain obtained by merging the candidate `rhs` into the
receiving chain `lhs`: the members of both; "the union of all member nodes' individual
ancestor sets minus intra-chain members"; "the union with the chain's own member bitset". -/
def Chain.merge (lhs rhs : Chain) : Chain :=
  let nodes := lhs.nodes ++ rhs.nodes
  let members := nodes.map (fun t => t.task_id)
  let ancestors := ((lhs.ancestors ++ rhs.ancestors).filter (fun a => decide (a ∉ members))).dedup
  { nodes := nodes, ancestors := ancestors,
    ancestors_and_this := (ancestors ++ members).dedup, stream_area_id := lhs.stream_area_id }

/-- Modelled from the spec: one greedy step of the merge: the candidate is merged into the
first chain that shares its stream area and with which it forms a compatible ancestor
relationship, and stays a chain of its own when there is none. The test of compatibility (that
the merge creates no cycle) is the parameter `compatible`. -/
def MergeTaskNodes.step (compatible : Chain → Chain → Bool) : List Chain → Chain → List Chain
  | [], rhs => [rhs]
  | lhs :: rest, rhs =>
    if lhs.stream_area_id = rhs.stream_area_id ∧ compatible lhs rhs = true then
      lhs.merge rhs :: rest
    else lhs :: MergeTaskNodes.step compatible rest rhs

/-- Modelled from the spec: `ChainGraph::MergeTaskNodes`: within each machine the task nodes
are merged greedily, in order; the result is the member lists of all chains. -/
def MergeTaskNodes (compatible : Chain → Chain → Bool) (table : List (Nat × List Nat))
    (machine2tasks : List (Int × List TaskNode)) : List (List TaskNode) :=
  machine2tasks.flatMap (fun mt =>
    ((mt.2.map (Chain.singleton table)).foldl (MergeTaskNodes.step compatible) []).map
      (fun c => c.nodes))

/-- Modelled from the spec: `ChainGraph::InitChainNode`: one chain node per chain, and an
entry of `task_node2chain_node_` for each of its task nodes. -/
def InitChainNode (chains : List (List TaskNode)) : List ChainNode × List (Nat × ChainNode) :=
  let chain_nodes : List ChainNode :=
    chains.map (fun task_nodes => { task_nodes := task_nodes, chain_id := -1 })
  (chain_nodes, chain_nodes.flatMap (fun c => c.task_nodes.map (fun t => (t.task_id, c))))

/-- Modelled from the spec: `ChainGraph::InitChainEdge`: "a directed edge exists from chain A
to chain B if some task node in A is a direct predecessor of some task node in B and A is not
B; duplicate edges are collapsed to one". Chains are named by their position. -/
def InitChainEdge (task_gph : TaskGraph) (chains : List (List TaskNode)) : List (Nat × Nat) :=
  let chainOf := fun (id : Nat) =>
    chains.findIdx? (fun ns => ns.any (fun t => t.task_id = id))
  (task_gph.edges.filterMap (fun e =>
    match chainOf e.1, chainOf e.2 with
    | some a, some b => if a = b then none else some (a, b)
    | _, _ => none)).dedup

/-- Modelled from the spec: the constructor `ChainGraph::ChainGraph(task_gph)`: group by
machine, merge, create the chain nodes and the edges. The order of `OrderdedChainNodes` and the
chain ids, which `SetChainId4ChainNode` assigns afterwards, do not change which task nodes a
chain node holds and are left out. -/
def ChainGraph.build (compatible : Chain → Chain → Bool) (task_gph : TaskGraph) : ChainGraph :=
  let machine2tasks := GroupTaskNodesByMachine task_gph
  let chains := MergeTaskNodes compatible task_gph.ancestorTable machine2tasks
  let init := InitChainNode chains
  { chain_nodes := init.1, chain_edges := InitChainEdge task_gph chains,
    task_node2chain_node_ := init.2 }

/-- Modelled from the spec: a test of compatibility for the merge: every ancestor of the
candidate is a member or an ancestor of the receiving chain, so that no member of the merged
chain comes to depend on a node that depends on the chain. -/
def ancestorsCompatible (lhs rhs : Chain) : Bool :=
  rhs.ancestors.all (fun a => decide (a ∈ lhs.ancestors_and_this))

/-- An index vector lies in the shape: same rank, and `0 <= index[i] < shape[i]` on every
axis. -/
def IndexInShape (index shape : List Int) : Prop :=
  List.Forall₂ (fun a d => 0 ≤ a ∧ a < d) index shape

/-! ## Example data -/

/-- An id manager in which actor `a` lives on machine `a / 100` and thread `a % 100`, seen from
rank 0; the token `t` serialises to the single byte `t`, and a buffer deserialises to a control
message whose destination actor is the first byte. -/
def exampleBusEnv : BusEnv where
  MachineId4ActorId := fun a => a / 100
  ThrdId4ActorId := fun a => a % 100
  Rank := 0
  SerialTokenToData := fun t => [t]
  DeserialDataToActorMsg := fun data =>
    { src_actor_id := 0, dst_actor_id := (data.headD 0 : Nat), regst_desc_id := 0,
      IsDataRegstMsgToConsumer := false, comm_net_token := 0, comm_net_sequence_number := 0,
      user_data := [] }

/-- A message from actor 1 with the given destination actor, register descriptor and kind. -/
def exampleMsg (dst_actor_id regst_desc_id : Int) (is_data : Bool) : ActorMsg :=
  { src_actor_id := 1, dst_actor_id := dst_actor_id, regst_desc_id := regst_desc_id,
    IsDataRegstMsgToConsumer := is_data, comm_net_token := 9, comm_net_sequence_number := 0,
    user_data := [] }

/-- Sends that interleave two remote data channels, a local data message and a remote control
message. -/
def exampleMsgs : List ActorMsg :=
  [exampleMsg 105 7 true, exampleMsg 205 8 true, exampleMsg 5 7 true, exampleMsg 105 7 false,
   exampleMsg 105 7 true]

/-- The placement on CPU with the given ranks. -/
def exampleCpuPlacement (ranks : List Nat) : ParallelDesc :=
  { device_tag := "cpu", device_type := DeviceType.kCPU, ranks := ranks }

/-- The placement on GPU with the given ranks. -/
def exampleGpuPlacement (ranks : List Nat) : ParallelDesc :=
  { device_tag := "gpu", device_type := DeviceType.kGPU, ranks := ranks }

/-- The layout Split(axis 0) on CPU ranks 0 and 1. -/
def exampleS0Cpu01 : PlacedNdSbp :=
  { nd_sbp := ⟨[SbpParallel.split_parallel 0]⟩, placement := exampleCpuPlacement [0, 1] }

/-- The layout Split(axis 0) on CPU ranks 0 to 3. -/
def exampleS0Cpu0123 : PlacedNdSbp :=
  { nd_sbp := ⟨[SbpParallel.split_parallel 0]⟩, placement := exampleCpuPlacement [0, 1, 2, 3] }

/-- The layout Split(axis 0) on GPU ranks 0 and 1. -/
def exampleS0Gpu01 : PlacedNdSbp :=
  { nd_sbp := ⟨[SbpParallel.split_parallel 0]⟩, placement := exampleGpuPlacement [0, 1] }

/-- A tensor of shape `[8]` with layout `exampleS0Cpu01`; the current rank holds the first four
elements. -/
def exampleTensor : Tensor :=
  .Consistent ⟨[SbpParallel.split_parallel 0]⟩ (exampleCpuPlacement [0, 1])
    (some { is_eager := true, is_cuda := false, shape := [4], dtype := DataType.kInt64,
            data := [10, 11, 12, 13] })
    [8] DataType.kInt64 true

/-- An op interpreter under which the exchange leaves the current rank with the first two
elements of its shard. -/
def exampleBoxingEnv : BoxingEnv where
  UniqueStr := fun s => .ok (s ++ "_0")
  Dispatch := fun _ x =>
    match x with
    | .Mirrored t => .ok (.Mirrored { t with shape := [2], data := t.data.take 2 })
    | .Consistent .. => .error (.RuntimeError "not a local tensor")

/-- A transport layer in which the send and the receive are issued but the peer never answers:
the wait ends with the timeout error. -/
def exampleTimeoutEnv : TransportEnv Int where
  RankGroupNew := fun placement => .ok placement.ranks
  NewTransportToken := .ok 0
  SendToNextRankInRing := fun _ _ _ => .ok ()
  ReceiveFromPrevRankInRing := fun _ _ => .ok ()
  WaitUntilDoneOrTimeout := .error Error.TimeoutError
  recv_buffer := [0, 0, 0]

/-- Boxing functions of which the exchange succeeds (it returns its input) and `GetSbpList`
reports an error. -/
def exampleFailingOps : BoxingOps where
  EagerS0ToS0 := fun x _ _ _ => .ok x
  GetSbpList := fun _ => .error (.RuntimeError "no sbp list")
  LocalToConsistent := LocalToConsistent

/-- A tensor with the given identity and `requires_grad` flag. -/
def exampleGradTensor (id : Nat) (requires_grad : Bool) : GradTensor :=
  { id := id, requires_grad := requires_grad }

/-- A task graph on two machines: on machine 0 the chain of nodes 1, 2, 3 in one stream area
and node 4 in another, on machine 1 node 5. -/
def exampleTaskGraph : TaskGraph where
  nodes :=
    [⟨1, 0, 0, 0⟩, ⟨2, 0, 0, 0⟩, ⟨4, 0, 1, 0⟩, ⟨5, 1, 0, 0⟩, ⟨3, 0, 0, 0⟩]
  edges := [(1, 2), (2, 3), (1, 4), (4, 5)]

/-- A quiet NaN: exponent bits all ones, the top fraction bit set. -/
def exampleNaN : Double := ⟨0x7FF8000000000000⟩

/-- The value `+0.0`. -/
def examplePosZero : Double := ⟨0⟩

/-- The value `-0.0`: only the sign bit set. -/
def exampleNegZero : Double := ⟨0x8000000000000000⟩

/-- The value `1.5`. -/
def exampleOneAndHalf : Double := ⟨0x3FF8000000000000⟩

/-! ## Theorems: actor message bus -/

theorem wrapInt64_eq_self {x : Int} (h0 : -2 ^ 63 ≤ x) (h1 : x < 2 ^ 63) : wrapInt64 x = x := by
  unfold wrapInt64
  rw [Int.emod_eq_of_lt (by omega) (by omega)]
  omega

theorem SeqMap.read_write (seq : SeqMap) (k k' : ChannelKey) (v : Int) :
    SeqMap.read (SeqMap.write seq k v) k' = if k = k' then v else SeqMap.read seq k' := by
  induction seq with
  | nil =>
    by_cases h : k = k' <;> simp [SeqMap.write, SeqMap.read, h]
  | cons p rest ih =>
    obtain ⟨k0, v0⟩ := p
    by_cases h0 : k0 = k
    · subst h0
      by_cases h : k0 = k' <;> simp [SeqMap.write, SeqMap.read, h]
    · by_cases h : k = k'
      · subst h
        simp [SeqMap.write, SeqMap.read, h0, ih]
      · by_cases h1 : k0 = k'
        · subst h1
          simp [SeqMap.write, SeqMap.read, h0, h]
        · simp [SeqMap.write, SeqMap.read, h0, h1, ih, h]

theorem sentSequenceNumbers_append (k : ChannelKey) (a b : List BusEffect) :
    sentSequenceNumbers k (a ++ b) = sentSequenceNumbers k a ++ sentSequenceNumbers k b := by
  induction a with
  | nil => simp [sentSequenceNumbers]
  | cons e rest ih =>
    cases e with
    | EnqueueActorMsg t m => simpa [sentSequenceNumbers] using ih
    | SerialTokenToData t => simpa [sentSequenceNumbers] using ih
    | CommNetSendMsg d m =>
      rw [List.cons_append]
      by_cases h : (m.IsDataRegstMsgToConsumer && decide (m.channel = k)) = true
      · simp only [sentSequenceNumbers, h, if_true, ih, List.cons_append]
      · simp only [sentSequenceNumbers, h, ih]
        simp

/-- One `SendMsg` call never aborts; on channel `k` it hands the current counter to the
transport exactly when the message is a remote data message of that channel, and then the
counter of `k` becomes the wrapped successor; otherwise the counter of `k` is as before. -/
theorem SendMsg_step (env : BusEnv) (seq : SeqMap) (msg : ActorMsg) (k : ChannelKey) :
    ∃ seq1 effs, SendMsg env seq msg = .ok (seq1, effs) ∧
      (if (isRemoteData env msg && decide (msg.channel = k)) = true then
        sentSequenceNumbers k effs = [seq.read k] ∧
          seq1.read k = wrapInt64 (seq.read k + 1)
      else sentSequenceNumbers k effs = [] ∧ seq1.read k = seq.read k) := by
  by_cases hloc : env.MachineId4ActorId msg.dst_actor_id = env.Rank
  · refine ⟨seq, [.EnqueueActorMsg (env.ThrdId4ActorId msg.dst_actor_id) msg], ?_, ?_⟩
    · simp [SendMsg, SendMsgWithoutCommNet, hloc]
    · simp [isRemoteData, hloc, sentSequenceNumbers]
  · by_cases hdata : msg.IsDataRegstMsgToConsumer = true
    · refine ⟨seq.write msg.channel (wrapInt64 (seq.read msg.channel + 1)),
        [.SerialTokenToData msg.comm_net_token,
         .CommNetSendMsg (env.MachineId4ActorId msg.dst_actor_id)
          ((msg.set_comm_net_sequence_number (seq.read msg.channel)).AddUserData
            (env.SerialTokenToData msg.comm_net_token))], ?_, ?_⟩
      · simp [SendMsg, hloc, hdata, ActorMsg.set_comm_net_sequence_number]
      · by_cases hk : msg.channel = k
        · subst hk
          simp [isRemoteData, hloc, hdata, sentSequenceNumbers, SeqMap.read_write,
            ActorMsg.set_comm_net_sequence_number, ActorMsg.AddUserData, ActorMsg.channel]
        · simp [isRemoteData, hloc, hdata, sentSequenceNumbers, SeqMap.read_write, hk,
            ActorMsg.set_comm_net_sequence_number, ActorMsg.AddUserData]
          simpa [ActorMsg.channel] using hk
    · refine ⟨seq, [.CommNetSendMsg (env.MachineId4ActorId msg.dst_actor_id) msg], ?_, ?_⟩
      · simp [SendMsg, hloc, hdata]
      · simp [isRemoteData, hloc, hdata, sentSequenceNumbers]

theorem remoteDataCount_cons (env : BusEnv) (k : ChannelKey) (msg : ActorMsg)
    (rest : List ActorMsg) :
    remoteDataCount env k (msg :: rest) =
      (if (isRemoteData env msg && decide (msg.channel = k)) = true then 1 else 0) +
        remoteDataCount env k rest := by
  unfold remoteDataCount
  by_cases h : (isRemoteData env msg && decide (msg.channel = k)) = true
  · simp only [List.filter_cons, h, if_true, List.length_cons]; omega
  · simp only [List.filter_cons, h, if_false]; simp

/-- A run of `SendMsg` calls never aborts, and as long as the counter of channel `k` stays in
the range of `int64_t` the numbers sent on `k` are consecutive from the counter's value. -/
theorem SendMsgs_numbers (env : BusEnv) (k : ChannelKey) (msgs : List ActorMsg) :
    ∀ seq : SeqMap,
      (remoteDataCount env k msgs ≠ 0 →
        -2 ^ 63 ≤ seq.read k ∧ seq.read k + remoteDataCount env k msgs ≤ 2 ^ 63) →
      ∃ seq1 effs, SendMsgs env seq msgs = .ok (seq1, effs) ∧
        sentSequenceNumbers k effs =
          (List.range (remoteDataCount env k msgs)).map (fun j : Nat => seq.read k + (j : Int)) ∧
        (-2 ^ 63 ≤ seq.read k → seq.read k + remoteDataCount env k msgs < 2 ^ 63 →
          seq1.read k = seq.read k + remoteDataCount env k msgs) := by
  induction msgs with
  | nil =>
    intro seq _
    exact ⟨seq, [], rfl, by simp [remoteDataCount, sentSequenceNumbers],
      by simp [remoteDataCount]⟩
  | cons msg rest ih =>
    intro seq hrange
    obtain ⟨seq1, effs, hstep, hcase⟩ := SendMsg_step env seq msg k
    rw [remoteDataCount_cons] at hrange ⊢
    by_cases hm : (isRemoteData env msg && decide (msg.channel = k)) = true
    · rw [if_pos hm] at hcase hrange ⊢
      obtain ⟨hsent, hread⟩ := hcase
      obtain ⟨hlo, hhi⟩ := hrange (by omega)
      have hih : remoteDataCount env k rest ≠ 0 →
          -2 ^ 63 ≤ seq1.read k ∧ seq1.read k + remoteDataCount env k rest ≤ 2 ^ 63 := by
        intro hne
        have hlt : seq.read k + 1 < 2 ^ 63 := by omega
        rw [hread, wrapInt64_eq_self (by omega) hlt]
        constructor <;> omega
      obtain ⟨seq2, effs2, hrun, hsent2, hread2⟩ := ih seq1 hih
      refine ⟨seq2, effs ++ effs2, ?_, ?_, ?_⟩
      · simp [SendMsgs, hstep, hrun]
      · rw [sentSequenceNumbers_append, hsent, hsent2, Nat.add_comm 1, List.range_succ_eq_map]
        simp only [List.map_cons, List.map_map, List.singleton_append, Nat.cast_zero, add_zero]
        congr 1
        by_cases hne : remoteDataCount env k rest = 0
        · simp [hne]
        · have hlt : seq.read k + 1 < 2 ^ 63 := by omega
          rw [hread, wrapInt64_eq_self (by omega) hlt]
          apply List.map_congr_left
          intro j _
          simp only [Function.comp, Nat.succ_eq_add_one, Nat.cast_add, Nat.cast_one]
          omega
      · intro hlo2 hlt2
        have hlt : seq.read k + 1 < 2 ^ 63 := by omega
        have h1 : seq1.read k = seq.read k + 1 := by
          rw [hread, wrapInt64_eq_self (by omega) hlt]
        rw [hread2 (by omega) (by omega), h1]
        push_cast
        omega
    · rw [if_neg hm] at hcase hrange ⊢
      obtain ⟨hsent, hread⟩ := hcase
      simp only [Nat.zero_add] at hrange ⊢
      obtain ⟨seq2, effs2, hrun, hsent2, hread2⟩ := ih seq1 (by rw [hread]; exact hrange)
      refine ⟨seq2, effs ++ effs2, ?_, ?_, ?_⟩
      · simp [SendMsgs, hstep, hrun]
      · rw [sentSequenceNumbers_append, hsent, hsent2, hread]
        simp
      · intro hlo2 hlt2
        rw [hread2 (by rw [hread]; exact hlo2) (by rw [hread]; exact hlt2), hread]

/-- C1. On a fresh bus, for every finite sequence of `SendMsg` calls (any interleaving of
channels, of local and remote destinations, of control and data messages) in which channel `k`
carries at most `2 ^ 63` remote data messages (the numbers an `int64_t` counter can give out
before its increment overflows): no call aborts; the sequence numbers handed to the transport on
channel `k` are exactly `0, 1, 2, ...` in send order, hence strictly increasing and pairwise
distinct, and depend only on how many remote data messages of `k` were sent; and the remote
data message of `k` that is preceded by `i` such messages is handed to the transport, addressed
to its destination machine, stamped with `comm_net_sequence_number = i`. -/
theorem SendMsg_channel_sequence_numbers (env : BusEnv) (msgs : List ActorMsg) (k : ChannelKey)
    (hcap : remoteDataCount env k msgs ≤ 2 ^ 63) :
    ∃ seq effs, SendMsgs env [] msgs = .ok (seq, effs) ∧
      sentSequenceNumbers k effs = (List.range (remoteDataCount env k msgs)).map Int.ofNat ∧
      (sentSequenceNumbers k effs).Pairwise (fun a b => a < b) ∧
      (sentSequenceNumbers k effs).Nodup ∧
      ∀ pre msg post, msgs = pre ++ msg :: post → isRemoteData env msg = true →
        msg.channel = k →
        ∃ seq0 effs0 seq1, SendMsgs env [] pre = .ok (seq0, effs0) ∧
          SendMsg env seq0 msg = .ok (seq1,
            [.SerialTokenToData msg.comm_net_token,
             .CommNetSendMsg (env.MachineId4ActorId msg.dst_actor_id)
               ((msg.set_comm_net_sequence_number (remoteDataCount env k pre)).AddUserData
                 (env.SerialTokenToData msg.comm_net_token))]) := by
  obtain ⟨seq, effs, hrun, hsent, -⟩ := SendMsgs_numbers env k msgs []
    (fun _ => ⟨by simp [SeqMap.read], by simpa [SeqMap.read] using hcap⟩)
  have hsent1 : sentSequenceNumbers k effs =
      (List.range (remoteDataCount env k msgs)).map Int.ofNat := by
    rw [hsent]
    apply List.map_congr_left
    intro j _
    simp [SeqMap.read]
  have hlt : (sentSequenceNumbers k effs).Pairwise (fun a b => a < b) := by
    rw [hsent1, List.pairwise_map]
    exact (List.pairwise_lt_range _).imp (fun h => by simpa using h)
  refine ⟨seq, effs, hrun, hsent1, hlt, ?_, ?_⟩
  · exact hlt.imp (fun h => ne_of_lt h)
  · intro pre msg post hsplit hremote hk
    have hcount : remoteDataCount env k msgs =
        remoteDataCount env k pre + 1 + remoteDataCount env k post := by
      subst hsplit
      simp [remoteDataCount, List.filter_append, List.filter_cons, hremote, hk]
      omega
    obtain ⟨seq0, effs0, hrun0, -, hread0⟩ := SendMsgs_numbers env k pre []
      (fun _ => ⟨by simp [SeqMap.read], by simp only [SeqMap.read]; omega⟩)
    have hread : seq0.read k = remoteDataCount env k pre := by
      have := hread0 (by simp [SeqMap.read]) (by simp only [SeqMap.read]; omega)
      simpa [SeqMap.read] using this
    have hloc : ¬ env.MachineId4ActorId msg.dst_actor_id = env.Rank := by
      simp only [isRemoteData, Bool.and_eq_true, decide_eq_true_eq] at hremote
      exact hremote.1
    have hdata : msg.IsDataRegstMsgToConsumer = true := by
      simp only [isRemoteData, Bool.and_eq_true, decide_eq_true_eq] at hremote
      exact hremote.2
    refine ⟨seq0, effs0, seq0.write k (wrapInt64 (seq0.read k + 1)), hrun0, ?_⟩
    simp only [SendMsg, hloc, if_false, hdata, if_true, hk, hread]
    rfl

/-- Witness for C1: the example trace; channel `(7, 105)` carries two remote data messages. -/
theorem SendMsg_channel_sequence_numbers_witness :
    remoteDataCount exampleBusEnv (7, 105) exampleMsgs ≤ 2 ^ 63 ∧
    ∃ seq effs, SendMsgs exampleBusEnv [] exampleMsgs = .ok (seq, effs) ∧
      sentSequenceNumbers (7, 105) effs =
        (List.range (remoteDataCount exampleBusEnv (7, 105) exampleMsgs)).map Int.ofNat ∧
      (sentSequenceNumbers (7, 105) effs).Pairwise (fun a b => a < b) ∧
      (sentSequenceNumbers (7, 105) effs).Nodup ∧
      ∀ pre msg post, exampleMsgs = pre ++ msg :: post → isRemoteData exampleBusEnv msg = true →
        msg.channel = (7, 105) →
        ∃ seq0 effs0 seq1, SendMsgs exampleBusEnv [] pre = .ok (seq0, effs0) ∧
          SendMsg exampleBusEnv seq0 msg = .ok (seq1,
            [.SerialTokenToData msg.comm_net_token,
             .CommNetSendMsg (exampleBusEnv.MachineId4ActorId msg.dst_actor_id)
               ((msg.set_comm_net_sequence_number
                  (remoteDataCount exampleBusEnv (7, 105) pre)).AddUserData
                 (exampleBusEnv.SerialTokenToData msg.comm_net_token))]) :=
  ⟨by decide, SendMsg_channel_sequence_numbers exampleBusEnv exampleMsgs (7, 105) (by decide)⟩

/-- C2. `SendMsg` with a message (control or data) whose destination actor lives on the local
rank: the call does not abort, its only effect is one `EnqueueActorMsg` of the message as given
on the thread `ThrdId4ActorId(dst_actor_id)` (so no transport call is made and no sequence
number is stamped), and the counter map is returned unchanged. -/
theorem SendMsg_local (env : BusEnv) (seq : SeqMap) (msg : ActorMsg)
    (hlocal : env.MachineId4ActorId msg.dst_actor_id = env.Rank) :
    SendMsg env seq msg =
      .ok (seq, [.EnqueueActorMsg (env.ThrdId4ActorId msg.dst_actor_id) msg]) := by
  simp [SendMsg, SendMsgWithoutCommNet, hlocal]

/-- Witness for C2: a data message for the local actor 5, with a non-empty counter map. -/
theorem SendMsg_local_witness :
    exampleBusEnv.MachineId4ActorId (exampleMsg 5 7 true).dst_actor_id = exampleBusEnv.Rank ∧
    SendMsg exampleBusEnv [((7, 105), 2)] (exampleMsg 5 7 true) =
      .ok ([((7, 105), 2)],
        [.EnqueueActorMsg (exampleBusEnv.ThrdId4ActorId (exampleMsg 5 7 true).dst_actor_id)
          (exampleMsg 5 7 true)]) :=
  ⟨by decide, SendMsg_local exampleBusEnv [((7, 105), 2)] (exampleMsg 5 7 true) (by decide)⟩

/-- C3. `SendMsg` with a remote message that is not a data message: the counter map is
returned unchanged (so every channel's counter is as before and no number is assigned), nothing
is enqueued locally, and the only effect is one `CommNet::SendMsg` addressed to
`MachineId4ActorId(dst_actor_id)` that carries the message exactly as given. -/
theorem SendMsg_remote_control (env : BusEnv) (seq : SeqMap) (msg : ActorMsg)
    (hremote : env.MachineId4ActorId msg.dst_actor_id ≠ env.Rank)
    (hctrl : msg.IsDataRegstMsgToConsumer = false) :
    SendMsg env seq msg =
      .ok (seq, [.CommNetSendMsg (env.MachineId4ActorId msg.dst_actor_id) msg]) := by
  simp [SendMsg, hremote, hctrl]

/-- Witness for C3: a control message for actor 105 on machine 1. -/
theorem SendMsg_remote_control_witness :
    exampleBusEnv.MachineId4ActorId (exampleMsg 105 7 false).dst_actor_id ≠ exampleBusEnv.Rank ∧
    (exampleMsg 105 7 false).IsDataRegstMsgToConsumer = false ∧
    SendMsg exampleBusEnv [((7, 105), 2)] (exampleMsg 105 7 false) =
      .ok ([((7, 105), 2)],
        [.CommNetSendMsg (exampleBusEnv.MachineId4ActorId (exampleMsg 105 7 false).dst_actor_id)
          (exampleMsg 105 7 false)]) :=
  ⟨by decide, rfl,
    SendMsg_remote_control exampleBusEnv [((7, 105), 2)] (exampleMsg 105 7 false) (by decide) rfl⟩

/-- C4. `HandleRecvData(data, size)` is `SendMsgWithoutCommNet` applied to the deserialised
message, for every received buffer (same result, enqueue or abort); and when the destination
actor of that message lives on the local rank, its effect is one `EnqueueActorMsg` of the
deserialised message on the thread of its destination actor, which is also the whole effect of
a local `SendMsg` of the same message: remote and local delivery meet in the same enqueue. -/
theorem HandleRecvData_eq_SendMsgWithoutCommNet (env : BusEnv) (data : List Nat) :
    HandleRecvData env data = SendMsgWithoutCommNet env (env.DeserialDataToActorMsg data) ∧
    (env.MachineId4ActorId (env.DeserialDataToActorMsg data).dst_actor_id = env.Rank →
      HandleRecvData env data =
        .ok [.EnqueueActorMsg (env.ThrdId4ActorId (env.DeserialDataToActorMsg data).dst_actor_id)
          (env.DeserialDataToActorMsg data)] ∧
      ∀ seq, SendMsg env seq (env.DeserialDataToActorMsg data) =
        .ok (seq,
          [.EnqueueActorMsg (env.ThrdId4ActorId (env.DeserialDataToActorMsg data).dst_actor_id)
            (env.DeserialDataToActorMsg data)])) := by
  refine ⟨rfl, fun hlocal => ⟨?_, fun seq => ?_⟩⟩
  · simp [HandleRecvData, SendMsgWithoutCommNet, hlocal]
  · simp [SendMsg, SendMsgWithoutCommNet, hlocal]

/-- Witness for C4: the buffer `[5]` deserialises to a message for the local actor 5. -/
theorem HandleRecvData_eq_SendMsgWithoutCommNet_witness :
    exampleBusEnv.MachineId4ActorId (exampleBusEnv.DeserialDataToActorMsg [5]).dst_actor_id =
      exampleBusEnv.Rank ∧
    HandleRecvData exampleBusEnv [5] =
      .ok [.EnqueueActorMsg 5 (exampleBusEnv.DeserialDataToActorMsg [5])] :=
  ⟨by decide,
    ((HandleRecvData_eq_SendMsgWithoutCommNet exampleBusEnv [5]).2 (by decide)).1⟩

/-- C5. `SendMsgWithoutCommNet` aborts (and then has no effect at all, so nothing is enqueued)
if and only if the id manager does not map the destination actor to the local rank; it returns
normally, its effect being exactly one `EnqueueActorMsg` of the message on the destination
actor's thread, if and only if the mapping is to the local rank. The same holds for
`HandleRecvData` with the deserialised message. -/
theorem SendMsgWithoutCommNet_fatal_iff (env : BusEnv) (msg : ActorMsg) (data : List Nat) :
    ((∃ e, SendMsgWithoutCommNet env msg = .error e) ↔
      env.MachineId4ActorId msg.dst_actor_id ≠ env.Rank) ∧
    (SendMsgWithoutCommNet env msg =
        .ok [.EnqueueActorMsg (env.ThrdId4ActorId msg.dst_actor_id) msg] ↔
      env.MachineId4ActorId msg.dst_actor_id = env.Rank) ∧
    ((∃ e, HandleRecvData env data = .error e) ↔
      env.MachineId4ActorId (env.DeserialDataToActorMsg data).dst_actor_id ≠ env.Rank) ∧
    (HandleRecvData env data =
        .ok [.EnqueueActorMsg (env.ThrdId4ActorId (env.DeserialDataToActorMsg data).dst_actor_id)
          (env.DeserialDataToActorMsg data)] ↔
      env.MachineId4ActorId (env.DeserialDataToActorMsg data).dst_actor_id = env.Rank) := by
  have key : ∀ m : ActorMsg,
      ((∃ e, SendMsgWithoutCommNet env m = .error e) ↔
        env.MachineId4ActorId m.dst_actor_id ≠ env.Rank) ∧
      (SendMsgWithoutCommNet env m =
          .ok [.EnqueueActorMsg (env.ThrdId4ActorId m.dst_actor_id) m] ↔
        env.MachineId4ActorId m.dst_actor_id = env.Rank) := by
    intro m
    by_cases h : env.MachineId4ActorId m.dst_actor_id = env.Rank
    · simp [SendMsgWithoutCommNet, h]
    · simp [SendMsgWithoutCommNet, h]
  exact ⟨(key msg).1, (key msg).2, (key _).1, (key _).2⟩

/-! ## Theorems: the s0-to-s0 boxing strategy -/

theorem IsSplitSbp_iff (sbp : SbpParallel) (axis : Int) :
    IsSplitSbp sbp axis = true ↔ sbp = SbpParallel.split_parallel 0 := by
  cases sbp <;> simp [IsSplitSbp, SbpParallel.has_split_parallel, SbpParallel.split_axis]

theorem RawCheckCclS0ToS0_ok_iff (in_ out : PlacedNdSbp) :
    RawCheckCclS0ToS0 in_ out = .ok () ↔
      in_.nd_sbp.sbp_parallel = [SbpParallel.split_parallel 0] ∧
      out.nd_sbp.sbp_parallel = [SbpParallel.split_parallel 0] ∧
      in_.placement.device_tag = out.placement.device_tag ∧
      in_.placement.device_type = DeviceType.kCPU := by
  obtain ⟨⟨lin⟩, pin⟩ := in_
  obtain ⟨⟨lout⟩, pout⟩ := out
  unfold RawCheckCclS0ToS0
  simp only [NdSbp.sbp_parallel_size]
  match lin, lout with
  | [], _ => simp
  | _ :: _ :: _, _ => simp
  | [a], [] => simp
  | [a], _ :: _ :: _ => simp
  | [a], [b] =>
    simp only [List.length_singleton, dite_true, List.get_cons_zero, IsSplitSbp_iff]
    by_cases ha : a = SbpParallel.split_parallel 0 <;>
    by_cases hb : b = SbpParallel.split_parallel 0 <;>
    by_cases ht : pin.device_tag = pout.device_tag <;>
    by_cases hc : pin.device_type = DeviceType.kCPU <;>
    simp [ha, hb, ht, hc]

/-- C6. `RawCheckCclS0ToS0(in, out)` returns Ok if and only if `in` has exactly one directive,
`out` has exactly one directive, the directive of each is Split on axis 0, the device tags of
the two placements are equal and the placement of `in` has device type CPU; in every other case
it returns an error. The rank sets play no part: replacing them leaves the result as it was,
and Split(0) on CPU ranks 0,1 to Split(0) on CPU ranks 0,1,2,3 is accepted. A pair with
different device tags is rejected. -/
theorem RawCheckCclS0ToS0_accepts_iff (in_ out : PlacedNdSbp) :
    (RawCheckCclS0ToS0 in_ out = .ok () ↔
      in_.nd_sbp.sbp_parallel_size = 1 ∧ out.nd_sbp.sbp_parallel_size = 1 ∧
      in_.nd_sbp.sbp_parallel = [SbpParallel.split_parallel 0] ∧
      out.nd_sbp.sbp_parallel = [SbpParallel.split_parallel 0] ∧
      in_.placement.device_tag = out.placement.device_tag ∧
      in_.placement.device_type = DeviceType.kCPU) ∧
    ((∃ e, RawCheckCclS0ToS0 in_ out = .error e) ↔
      ¬ (in_.nd_sbp.sbp_parallel_size = 1 ∧ out.nd_sbp.sbp_parallel_size = 1 ∧
        in_.nd_sbp.sbp_parallel = [SbpParallel.split_parallel 0] ∧
        out.nd_sbp.sbp_parallel = [SbpParallel.split_parallel 0] ∧
        in_.placement.device_tag = out.placement.device_tag ∧
        in_.placement.device_type = DeviceType.kCPU)) ∧
    (∀ ranks_in ranks_out : List Nat,
      RawCheckCclS0ToS0
          { in_ with placement := { in_.placement with ranks := ranks_in } }
          { out with placement := { out.placement with ranks := ranks_out } } =
        RawCheckCclS0ToS0 in_ out) ∧
    RawCheckCclS0ToS0 exampleS0Cpu01 exampleS0Cpu0123 = .ok () ∧
    (in_.placement.device_tag ≠ out.placement.device_tag →
      ∃ e, RawCheckCclS0ToS0 in_ out = .error e) := by
  have hiff : RawCheckCclS0ToS0 in_ out = .ok () ↔
      in_.nd_sbp.sbp_parallel_size = 1 ∧ out.nd_sbp.sbp_parallel_size = 1 ∧
      in_.nd_sbp.sbp_parallel = [SbpParallel.split_parallel 0] ∧
      out.nd_sbp.sbp_parallel = [SbpParallel.split_parallel 0] ∧
      in_.placement.device_tag = out.placement.device_tag ∧
      in_.placement.device_type = DeviceType.kCPU := by
    rw [RawCheckCclS0ToS0_ok_iff]
    constructor
    · rintro ⟨h1, h2, h3, h4⟩
      exact ⟨by simp [NdSbp.sbp_parallel_size, h1], by simp [NdSbp.sbp_parallel_size, h2],
        h1, h2, h3, h4⟩
    · rintro ⟨-, -, h1, h2, h3, h4⟩
      exact ⟨h1, h2, h3, h4⟩
  have herr : ∀ r : Except Error Unit, (∃ e, r = .error e) ↔ ¬ r = .ok () := by
    intro r
    cases r with
    | error e => simp
    | ok u => simp
  refine ⟨hiff, ?_, ?_, ?_, ?_⟩
  · rw [herr, hiff]
  · intro ranks_in ranks_out
    rfl
  · rfl
  · intro hne
    rw [herr, hiff]
    intro h
    exact hne h.2.2.2.2.1

/-- Witness for C6: Split(0) on CPU to Split(0) on GPU, whose device tags differ, is rejected. -/
theorem RawCheckCclS0ToS0_accepts_iff_witness :
    exampleS0Cpu01.placement.device_tag ≠ exampleS0Gpu01.placement.device_tag ∧
    ∃ e, RawCheckCclS0ToS0 exampleS0Cpu01 exampleS0Gpu01 = .error e :=
  ⟨by decide, (RawCheckCclS0ToS0_accepts_iff exampleS0Cpu01 exampleS0Gpu01).2.2.2.2 (by decide)⟩

/-- C7. Whenever `CclS0ToS0(tensor, in, out)` returns a tensor, the layout of `tensor` was
`in` (its NdSbp and placement passed the two checks), and the returned tensor is the result of
`LocalToConsistent` applied to the tensor `EagerS0ToS0` produced from the current rank's shard,
with placement `out->placement()`, the SBP list of `out->nd_sbp()`, and the shape and dtype of
`tensor`; hence its NdSbp is `out->nd_sbp()` and its placement is `out->placement()`. -/
theorem CclS0ToS0_result_layout (env : BoxingEnv) (tensor : Tensor) (in_ out : PlacedNdSbp)
    (t : Tensor) (hret : CclS0ToS0 env tensor in_ out = .ok t) :
    tensor.nd_sbp = .ok in_.nd_sbp ∧ tensor.parallel_desc = .ok in_.placement ∧
    (∃ phy local_tensor sbp_list,
      tensor.cur_rank_phy_tensor = .ok phy ∧
      EagerS0ToS0 env phy in_.placement out.placement tensor.shape = .ok local_tensor ∧
      GetSbpList out.nd_sbp = .ok sbp_list ∧
      LocalToConsistent local_tensor out.placement sbp_list tensor.shape tensor.dtype = .ok t) ∧
    t.nd_sbp = .ok out.nd_sbp ∧ t.parallel_desc = .ok out.placement := by
  unfold CclS0ToS0 at hret
  cases hn : tensor.nd_sbp with
  | error e => simp [hn] at hret
  | ok tensor_nd_sbp =>
    simp only [hn] at hret
    by_cases hne : tensor_nd_sbp = in_.nd_sbp
    · subst hne
      simp only [ne_eq, not_true_eq_false, if_false] at hret
      cases hp : tensor.parallel_desc with
      | error e => simp [hp] at hret
      | ok tensor_placement =>
        simp only [hp] at hret
        by_cases hpe : tensor_placement = in_.placement
        · subst hpe
          simp only [ne_eq, not_true_eq_false, if_false] at hret
          cases hphy : tensor.cur_rank_phy_tensor with
          | error e => simp [hphy] at hret
          | ok phy =>
            simp only [hphy] at hret
            cases he : EagerS0ToS0 env phy in_.placement out.placement tensor.shape with
            | error e => simp [he] at hret
            | ok local_tensor =>
              simp only [he, GetSbpList] at hret
              refine ⟨rfl, rfl, ⟨phy, local_tensor, out.nd_sbp.sbp_parallel, rfl, he, rfl, hret⟩,
                ?_, ?_⟩
              · cases local_tensor with
                | Mirrored m =>
                  simp only [LocalToConsistent, Except.ok.injEq] at hret
                  subst hret
                  rfl
                | Consistent a b c d e f => simp [LocalToConsistent] at hret
              · cases local_tensor with
                | Mirrored m =>
                  simp only [LocalToConsistent, Except.ok.injEq] at hret
                  subst hret
                  rfl
                | Consistent a b c d e f => simp [LocalToConsistent] at hret
        · simp [hpe] at hret
    · simp [hne] at hret

/-- Witness for C7: the shape `[8]` tensor split over CPU ranks 0,1 is redistributed to
Split(0) over CPU ranks 0,1,2,3; the executor returns a tensor, and its layout is the
destination. -/
theorem CclS0ToS0_result_layout_witness :
    CclS0ToS0 exampleBoxingEnv exampleTensor exampleS0Cpu01 exampleS0Cpu0123 =
      .ok (.Consistent ⟨[SbpParallel.split_parallel 0]⟩ (exampleCpuPlacement [0, 1, 2, 3])
        (some { is_eager := true, is_cuda := false, shape := [2], dtype := DataType.kInt64,
                data := [10, 11] })
        [8] DataType.kInt64 true) ∧
    (Tensor.Consistent ⟨[SbpParallel.split_parallel 0]⟩ (exampleCpuPlacement [0, 1, 2, 3])
        (some { is_eager := true, is_cuda := false, shape := [2], dtype := DataType.kInt64,
                data := [10, 11] })
        [8] DataType.kInt64 true).nd_sbp = .ok exampleS0Cpu0123.nd_sbp ∧
    (Tensor.Consistent ⟨[SbpParallel.split_parallel 0]⟩ (exampleCpuPlacement [0, 1, 2, 3])
        (some { is_eager := true, is_cuda := false, shape := [2], dtype := DataType.kInt64,
                data := [10, 11] })
        [8] DataType.kInt64 true).parallel_desc = .ok exampleS0Cpu0123.placement :=
  ⟨rfl,
    (CclS0ToS0_result_layout exampleBoxingEnv exampleTensor exampleS0Cpu01 exampleS0Cpu0123
      _ rfl).2.2.2⟩

/-! ## Theorems: all-broadcast layout and the ring consistency check -/

theorem GetAllBroadcastNdSbp.loop_eq (remaining : Nat) (acc : NdSbp) :
    GetAllBroadcastNdSbp.loop remaining acc =
      ⟨acc.sbp_parallel ++ List.replicate remaining SbpParallel.broadcast_parallel⟩ := by
  induction remaining generalizing acc with
  | zero => simp [GetAllBroadcastNdSbp.loop]
  | succ n ih =>
    rw [GetAllBroadcastNdSbp.loop, ih]
    simp [List.replicate_succ]

theorem ThreadLocal.lookup_mem {κ ρ : Type} [DecidableEq κ] (table : ThreadLocalTable κ ρ)
    (key : κ) (r : ρ) (h : table.lookup key = some r) : (key, r) ∈ table := by
  induction table with
  | nil => simp [List.lookup] at h
  | cons p rest ih =>
    obtain ⟨k0, v0⟩ := p
    by_cases hk : key = k0
    · subst hk
      simp [List.lookup] at h
      simp [h]
    · have hb : (key == k0) = false := by simpa using hk
      simp only [List.lookup, hb] at h
      exact List.mem_cons_of_mem _ (ih h)

/-- Every entry of the table of a decorated function is the function's value at its key, after
any calls from the empty table. -/
theorem CachedGetAllBroadcastNdSbp.tableAfter_sound (calls : List Nat) :
    ∀ table : ThreadLocalTable Nat (Except Error NdSbp),
      (∀ p ∈ table, p.2 = GetAllBroadcastNdSbp p.1) →
      ∀ p ∈ CachedGetAllBroadcastNdSbp.tableAfter table calls, p.2 = GetAllBroadcastNdSbp p.1 := by
  induction calls with
  | nil => intro table h; simpa [CachedGetAllBroadcastNdSbp.tableAfter] using h
  | cons n rest ih =>
    intro table h
    rw [CachedGetAllBroadcastNdSbp.tableAfter]
    apply ih
    intro p hp
    unfold CachedGetAllBroadcastNdSbp ThreadLocal at hp
    cases hl : List.lookup n table with
    | some r =>
      rw [hl] at hp
      exact h p hp
    | none =>
      rw [hl] at hp
      rcases List.mem_cons.mp hp with rfl | hp
      · rfl
      · exact h p hp

/-- C8. `GetAllBroadcastNdSbp(ndim)` returns, for every `ndim`, the layout descriptor made of
`ndim` Broadcast directives: it has exactly `ndim` directives and each is Broadcast (none is a
Split or a PartialSum). The memoised `CachedGetAllBroadcastNdSbp` returns the value of the
uncached function for every `ndim`, whatever calls the thread made before. -/
theorem GetAllBroadcastNdSbp_all_broadcast (ndim : Nat) (calls : List Nat) :
    GetAllBroadcastNdSbp ndim =
      .ok ⟨List.replicate ndim SbpParallel.broadcast_parallel⟩ ∧
    (∃ n, GetAllBroadcastNdSbp ndim = .ok n ∧ n.sbp_parallel_size = ndim ∧
      ∀ s ∈ n.sbp_parallel, s = SbpParallel.broadcast_parallel ∧
        (∀ axis, s ≠ SbpParallel.split_parallel axis) ∧ s ≠ SbpParallel.partial_sum_parallel) ∧
    (CachedGetAllBroadcastNdSbp (CachedGetAllBroadcastNdSbp.tableAfter [] calls) ndim).1 =
      GetAllBroadcastNdSbp ndim := by
  have hval : GetAllBroadcastNdSbp ndim =
      .ok ⟨List.replicate ndim SbpParallel.broadcast_parallel⟩ := by
    simp [GetAllBroadcastNdSbp, GetAllBroadcastNdSbp.loop_eq]
  refine ⟨hval, ⟨_, hval, by simp [NdSbp.sbp_parallel_size], ?_⟩, ?_⟩
  · intro s hs
    have := List.eq_of_mem_replicate hs
    subst this
    simp
  · have hsound := CachedGetAllBroadcastNdSbp.tableAfter_sound calls [] (by simp)
    unfold CachedGetAllBroadcastNdSbp ThreadLocal
    cases hl : List.lookup ndim (CachedGetAllBroadcastNdSbp.tableAfter [] calls) with
    | some r => exact hsound _ (ThreadLocal.lookup_mem _ _ _ hl)
    | none => rfl

theorem CheckVecEqual.loop_iff {T : Type} (ne : T → T → Bool) (in0 in1 : Nat → T)
    (remaining : Nat) :
    ∀ i, CheckVecEqual.loop ne in0 in1 i remaining = true ↔
      ∀ j, i ≤ j → j < i + remaining → ne (in0 j) (in1 j) = false := by
  induction remaining with
  | zero =>
    intro i
    simp only [CheckVecEqual.loop, true_iff]
    intro j h1 h2
    omega
  | succ n ih =>
    intro i
    rw [CheckVecEqual.loop]
    cases h : ne (in0 i) (in1 i) with
    | false =>
      simp only [Bool.false_eq_true, if_false, ih]
      constructor
      · intro hall j h1 h2
        by_cases hj : j = i
        · subst hj; exact h
        · exact hall j (by omega) (by omega)
      · intro hall j h1 h2
        exact hall j (by omega) (by omega)
    | true =>
      simp only [if_true, Bool.false_eq_true, false_iff]
      intro hall
      have := hall i (Nat.le_refl _) (by omega)
      rw [h] at this
      cases this

theorem CheckVecEqual_true_iff {T : Type} (ne : T → T → Bool) (size : Nat)
    (in0 in1 : Nat → T) :
    CheckVecEqual ne size in0 in1 = true ↔ ∀ i, i < size → ne (in0 i) (in1 i) = false := by
  unfold CheckVecEqual
  rw [CheckVecEqual.loop_iff]
  constructor
  · intro h i hi
    exact h i (Nat.zero_le _) (by omega)
  · intro h i _ hi
    exact h i (by omega)

/-- C9. For every element type, with `in0[i] == in1[i]` read as the type's own comparison (the
negation of its `!=`, exact, with no tolerance): `CheckVecEqual(size, in0, in1)` returns true if
and only if `in0[i] == in1[i]` for every index `i < size`, and false if and only if some
position below `size` compares unequal; it is true for size 0. For the integer element types
this is equality of the values at every index: `[1,2,3]` against `[1,2,4]` is false and
`[1,2,3]` against `[1,2,3]` is true. For `double` it is the comparison of IEEE 754: `[1.5]`
against `[1.5]` is true, `[+0.0]` against `[-0.0]` is true, and `[NaN]` against the same
`[NaN]` is false. -/
theorem CheckVecEqual_iff {T : Type} (ne : T → T → Bool) (size : Nat) (in0 in1 : Nat → T) :
    (CheckVecEqual ne size in0 in1 = true ↔ ∀ i, i < size → ne (in0 i) (in1 i) = false) ∧
    (CheckVecEqual ne size in0 in1 = false ↔ ∃ i, i < size ∧ ne (in0 i) (in1 i) = true) ∧
    CheckVecEqual ne 0 in0 in1 = true ∧
    (∀ a b : Nat → Int,
      CheckVecEqual integerNe size a b = true ↔ ∀ i, i < size → a i = b i) ∧
    CheckVecEqual integerNe 3 (bufferPtr [(1 : Int), 2, 3]) (bufferPtr [(1 : Int), 2, 4]) =
      false ∧
    CheckVecEqual integerNe 3 (bufferPtr [(1 : Int), 2, 3]) (bufferPtr [(1 : Int), 2, 3]) =
      true ∧
    CheckVecEqual Double.ne 1 (bufferPtr [exampleOneAndHalf]) (bufferPtr [exampleOneAndHalf]) =
      true ∧
    CheckVecEqual Double.ne 1 (bufferPtr [examplePosZero]) (bufferPtr [exampleNegZero]) = true ∧
    CheckVecEqual Double.ne 1 (bufferPtr [exampleNaN]) (bufferPtr [exampleNaN]) = false := by
  refine ⟨CheckVecEqual_true_iff ne size in0 in1, ?_, rfl, ?_, by decide, by decide, by decide,
    by decide, by decide⟩
  · rw [← Bool.not_eq_true, CheckVecEqual_true_iff]
    push_neg
    constructor
    · rintro ⟨i, hi, h⟩
      exact ⟨i, hi, by simpa using h⟩
    · rintro ⟨i, hi, h⟩
      exact ⟨i, hi, by simp [h]⟩
  · intro a b
    rw [CheckVecEqual_true_iff]
    simp [integerNe]

/-- C11. `DataConsistencyCheck` issues the send, the receive and the wait at most once each,
whatever the transport does. When the rank group and the token were obtained and the array has
`elem_cnt` elements: an error returned by `SendToNextRankInRing` is the result (and nothing
else is issued), an error returned by `ReceiveFromPrevRankInRing` is the result (the wait is
not issued), and an error returned by `WaitUntilDoneOrTimeout`, a timeout in particular, is the
result. The result is Ok only if all three operations returned Ok and the buffers compared
equal. -/
theorem DataConsistencyCheck_propagates_errors {T : Type} [Inhabited T] (ne : T → T → Bool)
    (env : TransportEnv T) (array : List T) (elem_cnt : Nat) (placement : ParallelDesc) :
    (∀ c : TransportCall, (DataConsistencyCheck ne env array elem_cnt placement).1.count c ≤ 1) ∧
    (∀ rank_group transport_token, env.RankGroupNew placement = .ok rank_group →
      env.NewTransportToken = .ok transport_token → array.length = elem_cnt →
      (∀ e, env.SendToNextRankInRing rank_group transport_token array = .error e →
        DataConsistencyCheck ne env array elem_cnt placement =
          ([.SendToNextRankInRing], .error e)) ∧
      (∀ e, env.SendToNextRankInRing rank_group transport_token array = .ok () →
        env.ReceiveFromPrevRankInRing rank_group transport_token = .error e →
        DataConsistencyCheck ne env array elem_cnt placement =
          ([.SendToNextRankInRing, .ReceiveFromPrevRankInRing], .error e)) ∧
      (∀ e, env.SendToNextRankInRing rank_group transport_token array = .ok () →
        env.ReceiveFromPrevRankInRing rank_group transport_token = .ok () →
        env.WaitUntilDoneOrTimeout = .error e →
        DataConsistencyCheck ne env array elem_cnt placement =
          ([.SendToNextRankInRing, .ReceiveFromPrevRankInRing, .WaitUntilDoneOrTimeout],
            .error e)) ∧
      ((DataConsistencyCheck ne env array elem_cnt placement).2 = .ok () →
        env.SendToNextRankInRing rank_group transport_token array = .ok () ∧
        env.ReceiveFromPrevRankInRing rank_group transport_token = .ok () ∧
        env.WaitUntilDoneOrTimeout = .ok () ∧
        CheckVecEqual ne elem_cnt (bufferPtr array) (bufferPtr env.recv_buffer) = true)) := by
  constructor
  · intro c
    unfold DataConsistencyCheck
    cases env.RankGroupNew placement with
    | error e => simp
    | ok rank_group =>
      cases env.NewTransportToken with
      | error e => simp
      | ok transport_token =>
        by_cases hsize : array.length = elem_cnt
        · simp only [hsize, ne_eq, not_true_eq_false, if_false]
          cases env.SendToNextRankInRing rank_group transport_token array with
          | error e => cases c <;> simp
          | ok u =>
            cases env.ReceiveFromPrevRankInRing rank_group transport_token with
            | error e => cases c <;> simp
            | ok u =>
              cases env.WaitUntilDoneOrTimeout with
              | error e => cases c <;> simp
              | ok u =>
                by_cases hc : CheckVecEqual ne elem_cnt (bufferPtr array)
                    (bufferPtr env.recv_buffer) = true
                · cases c <;> simp [hc]
                · cases c <;> simp [hc]
        · simp [hsize]
  · intro rank_group transport_token hrg htok hsize
    unfold DataConsistencyCheck
    simp only [hrg, htok, hsize, ne_eq, not_true_eq_false, if_false]
    refine ⟨?_, ?_, ?_, ?_⟩
    · intro e hs
      simp [hs]
    · intro e hs hr
      simp [hs, hr]
    · intro e hs hr hw
      simp [hs, hr, hw]
    · cases hs : env.SendToNextRankInRing rank_group transport_token array with
      | error e => simp
      | ok u =>
        cases hr : env.ReceiveFromPrevRankInRing rank_group transport_token with
        | error e => simp
        | ok u =>
          cases hw : env.WaitUntilDoneOrTimeout with
          | error e => simp
          | ok u =>
            by_cases hc : CheckVecEqual ne elem_cnt (bufferPtr array) (bufferPtr env.recv_buffer)
                = true
            · simp [hc]
            · simp [hc]

/-- Witness for C11: the peer never answers, the wait times out, and the check returns the
timeout error after one send, one receive and one wait. -/
theorem DataConsistencyCheck_propagates_errors_witness :
    exampleTimeoutEnv.RankGroupNew (exampleCpuPlacement [0, 1]) = .ok [0, 1] ∧
    exampleTimeoutEnv.WaitUntilDoneOrTimeout = .error Error.TimeoutError ∧
    DataConsistencyCheck integerNe exampleTimeoutEnv [1, 2, 3] 3 (exampleCpuPlacement [0, 1]) =
      ([.SendToNextRankInRing, .ReceiveFromPrevRankInRing, .WaitUntilDoneOrTimeout],
        .error Error.TimeoutError) :=
  ⟨rfl, rfl,
    ((DataConsistencyCheck_propagates_errors integerNe exampleTimeoutEnv [1, 2, 3] 3
      (exampleCpuPlacement [0, 1])).2 [0, 1] 0 rfl rfl rfl).2.2.1 Error.TimeoutError rfl rfl rfl⟩

/-- C13. A placement's device type is determined by its device tag (`DeviceType4DeviceTag`,
whatever that function is). For such placements, whenever `RawCheckCclS0ToS0(in, out)` accepts,
the placement of `in` and the placement of `out` both have device type CPU: the check compares
the two tags and the device type of `in`. -/
theorem RawCheckCclS0ToS0_cpu_both_sides (DeviceType4DeviceTag : String → DeviceType)
    (in_ out : PlacedNdSbp)
    (hin : in_.placement.device_type = DeviceType4DeviceTag in_.placement.device_tag)
    (hout : out.placement.device_type = DeviceType4DeviceTag out.placement.device_tag)
    (haccept : RawCheckCclS0ToS0 in_ out = .ok ()) :
    in_.placement.device_type = DeviceType.kCPU ∧
    out.placement.device_type = DeviceType.kCPU := by
  obtain ⟨-, -, htag, hcpu⟩ := (RawCheckCclS0ToS0_ok_iff in_ out).mp haccept
  refine ⟨hcpu, ?_⟩
  rw [hout, ← htag, ← hin, hcpu]

/-- Witness for C13: Split(0) on CPU ranks 0,1 to Split(0) on CPU ranks 0,1,2,3, with the tag
"cpu" naming the CPU device type. -/
theorem RawCheckCclS0ToS0_cpu_both_sides_witness :
    RawCheckCclS0ToS0 exampleS0Cpu01 exampleS0Cpu0123 = .ok () ∧
    exampleS0Cpu01.placement.device_type = DeviceType.kCPU ∧
    exampleS0Cpu0123.placement.device_type = DeviceType.kCPU :=
  ⟨rfl, RawCheckCclS0ToS0_cpu_both_sides
    (fun tag => if tag = "cpu" then DeviceType.kCPU else DeviceType.kGPU)
    exampleS0Cpu01 exampleS0Cpu0123 (by decide) (by decide) rfl⟩

/-- C14 (as amended). When `DataConsistencyCheck` fails because the received buffer differs
from the local buffer (the transport operations all succeeded), the error it returns is the
check-failed error with the fixed text "Each rank must have same input sequence or numpy
array": the same value whatever the rank, the buffers and the position of the mismatch. -/
theorem DataConsistencyCheck_mismatch_error {T : Type} [Inhabited T] (ne : T → T → Bool)
    (env : TransportEnv T) (array : List T) (elem_cnt : Nat) (placement : ParallelDesc)
    (rank_group : List Nat) (transport_token : Nat)
    (hrg : env.RankGroupNew placement = .ok rank_group)
    (htok : env.NewTransportToken = .ok transport_token)
    (hsize : array.length = elem_cnt)
    (hsend : env.SendToNextRankInRing rank_group transport_token array = .ok ())
    (hrecv : env.ReceiveFromPrevRankInRing rank_group transport_token = .ok ())
    (hwait : env.WaitUntilDoneOrTimeout = .ok ())
    (hdiff : CheckVecEqual ne elem_cnt (bufferPtr array) (bufferPtr env.recv_buffer) = false) :
    (DataConsistencyCheck ne env array elem_cnt placement).2 =
      .error (.CheckFailedError "Each rank must have same input sequence or numpy array") := by
  unfold DataConsistencyCheck
  simp [hrg, htok, hsize, hsend, hrecv, hwait, hdiff]

/-- Witness for C14 (as amended): rank 0 of the ring holding `[1,2,3]` and `[1,2,4]`. -/
theorem DataConsistencyCheck_mismatch_error_witness :
    CheckVecEqual integerNe 3 (bufferPtr [(1 : Int), 2, 3])
      (bufferPtr (ringTransportEnv [[(1 : Int), 2, 3], [1, 2, 4]] 0).recv_buffer) = false ∧
    (DataConsistencyCheck integerNe (ringTransportEnv [[(1 : Int), 2, 3], [1, 2, 4]] 0)
        [1, 2, 3] 3
        (exampleCpuPlacement [0, 1])).2 =
      .error (.CheckFailedError "Each rank must have same input sequence or numpy array") :=
  ⟨by decide,
    DataConsistencyCheck_mismatch_error integerNe
      (ringTransportEnv [[(1 : Int), 2, 3], [1, 2, 4]] 0)
      [1, 2, 3] 3 (exampleCpuPlacement [0, 1]) [0, 1] 0 rfl rfl rfl rfl rfl rfl (by decide)⟩

/-- Counterexample for C14: mismatches found on different ranks, and at different positions,
give one and the same error. In the ring `[1,2,3]`, `[1,2,4]` ranks 0 and 1 both fail (the
buffers differ at position 2); in the ring `[1,2,3]`, `[1,2,3]`, `[7,2,3]` ranks 2 and 0 fail
(position 0); all four errors are equal, so the error does not depend on the rank or on the
position. -/
theorem DataConsistencyCheck_error_same_on_all_ranks :
    ∃ e : Error,
      ringDataConsistencyCheck integerNe [[(1 : Int), 2, 3], [1, 2, 4]] 3
        (exampleCpuPlacement [0, 1]) 0 =
        .error e ∧
      ringDataConsistencyCheck integerNe [[(1 : Int), 2, 3], [1, 2, 4]] 3
        (exampleCpuPlacement [0, 1]) 1 =
        .error e ∧
      ringDataConsistencyCheck integerNe [[(1 : Int), 2, 3], [1, 2, 3], [7, 2, 3]] 3
        (exampleCpuPlacement [0, 1, 2]) 2 = .error e ∧
      ringDataConsistencyCheck integerNe [[(1 : Int), 2, 3], [1, 2, 3], [7, 2, 3]] 3
        (exampleCpuPlacement [0, 1, 2]) 0 = .error e :=
  ⟨.CheckFailedError "Each rank must have same input sequence or numpy array",
    rfl, rfl, rfl, rfl⟩

/-- C15. `CclS0ToS0` returns an error and calls none of `EagerS0ToS0`, `GetSbpList`,
`LocalToConsistent` whenever the NdSbp of the tensor differs from `in->nd_sbp()` or the
placement of the tensor differs from `in->placement()`; and once the checks have passed, an
error returned by `EagerS0ToS0`, by `GetSbpList` or by `LocalToConsistent` is the result of
`CclS0ToS0`. The executor of this development is the traced one with its functions filled
in. -/
theorem CclS0ToS0_precondition_errors (ops : BoxingOps) (tensor : Tensor)
    (in_ out : PlacedNdSbp) :
    (∀ n, tensor.nd_sbp = .ok n → n ≠ in_.nd_sbp →
      CclS0ToS0.traced ops tensor in_ out =
        ([], .error (.CheckFailedError "tensor_nd_sbp == in->nd_sbp()"))) ∧
    (∀ n p, tensor.nd_sbp = .ok n → tensor.parallel_desc = .ok p → p ≠ in_.placement →
      ∃ e, CclS0ToS0.traced ops tensor in_ out = ([], .error e)) ∧
    (∀ phy, tensor.nd_sbp = .ok in_.nd_sbp → tensor.parallel_desc = .ok in_.placement →
      tensor.cur_rank_phy_tensor = .ok phy →
      (∀ e, ops.EagerS0ToS0 phy in_.placement out.placement tensor.shape = .error e →
        CclS0ToS0.traced ops tensor in_ out = ([.EagerS0ToS0], .error e)) ∧
      (∀ local_tensor e,
        ops.EagerS0ToS0 phy in_.placement out.placement tensor.shape = .ok local_tensor →
        ops.GetSbpList out.nd_sbp = .error e →
        CclS0ToS0.traced ops tensor in_ out = ([.EagerS0ToS0, .GetSbpList], .error e)) ∧
      (∀ local_tensor sbp_list e,
        ops.EagerS0ToS0 phy in_.placement out.placement tensor.shape = .ok local_tensor →
        ops.GetSbpList out.nd_sbp = .ok sbp_list →
        ops.LocalToConsistent local_tensor out.placement sbp_list tensor.shape tensor.dtype =
          .error e →
        CclS0ToS0.traced ops tensor in_ out =
          ([.EagerS0ToS0, .GetSbpList, .LocalToConsistent], .error e))) ∧
    (∀ env : BoxingEnv,
      CclS0ToS0 env tensor in_ out = (CclS0ToS0.traced env.ops tensor in_ out).2) := by
  refine ⟨?_, ?_, ?_, ?_⟩
  · intro n hn hne
    simp [CclS0ToS0.traced, hn, hne]
  · intro n p hn hp hne
    by_cases h : n = in_.nd_sbp
    · exact ⟨.CheckFailedError "tensor_placement == in->placement()",
        by simp [CclS0ToS0.traced, hn, hp, h, hne]⟩
    · exact ⟨.CheckFailedError "tensor_nd_sbp == in->nd_sbp()",
        by simp [CclS0ToS0.traced, hn, h]⟩
  · intro phy hn hp hphy
    refine ⟨?_, ?_, ?_⟩
    · intro e he
      simp [CclS0ToS0.traced, hn, hp, hphy, he]
    · intro local_tensor e he hg
      simp [CclS0ToS0.traced, hn, hp, hphy, he, hg]
    · intro local_tensor sbp_list e he hg hl
      simp [CclS0ToS0.traced, hn, hp, hphy, he, hg, hl]
  · intro env
    unfold CclS0ToS0 CclS0ToS0.traced BoxingEnv.ops
    cases tensor.nd_sbp with
    | error e => rfl
    | ok n =>
      by_cases h : n = in_.nd_sbp
      · simp only [h, ne_eq, not_true_eq_false, if_false]
        cases tensor.parallel_desc with
        | error e => rfl
        | ok p =>
          by_cases hp : p = in_.placement
          · simp only [hp, ne_eq, not_true_eq_false, if_false]
            cases tensor.cur_rank_phy_tensor with
            | error e => rfl
            | ok phy =>
              simp only []
              cases EagerS0ToS0 env phy in_.placement out.placement tensor.shape with
              | error e => rfl
              | ok l => rfl
          · simp [hp]
      · simp [h]

/-- Witness for C15: the example tensor lies on CPU ranks 0,1 and is passed with a source
layout on ranks 0,1,2,3: the placement check fails and nothing is called; passed with its own
layout to functions whose `GetSbpList` fails, that error is the result. -/
theorem CclS0ToS0_precondition_errors_witness :
    (∃ e, CclS0ToS0.traced exampleFailingOps exampleTensor exampleS0Cpu0123 exampleS0Cpu01 =
      ([], .error e)) ∧
    CclS0ToS0.traced exampleFailingOps exampleTensor exampleS0Cpu01 exampleS0Cpu0123 =
      ([.EagerS0ToS0, .GetSbpList], .error (.RuntimeError "no sbp list")) :=
  ⟨(CclS0ToS0_precondition_errors exampleFailingOps exampleTensor exampleS0Cpu0123
      exampleS0Cpu01).2.1 _ _ rfl rfl (by decide),
   ((CclS0ToS0_precondition_errors exampleFailingOps exampleTensor exampleS0Cpu01
      exampleS0Cpu0123).2.2.1 _ rfl rfl rfl).2.1 _ _ rfl rfl⟩

theorem vectorResize_length {α : Type} (v : List α) (n : Nat) (init : α) :
    (vectorResize v n init).length = n := by
  simp only [vectorResize, List.length_append, List.length_take, List.length_replicate]
  omega

theorem vectorResize_nil_getElem? {α : Type} (n i : Nat) (init : α) (hi : i < n) :
    (vectorResize ([] : List α) n init)[i]? = some init := by
  simp [vectorResize, hi]

/-- The loop of `Capture` overwrites the entries from `i` on with the flags of the inputs. -/
theorem AddN.Capture.loop_getElem? (inputs : List GradTensor) (remaining : Nat) :
    ∀ (i : Nat) (rg : List Bool), i + remaining = inputs.length → rg.length = inputs.length →
      (AddN.Capture.loop inputs i remaining rg).length = inputs.length ∧
      ∀ j, (AddN.Capture.loop inputs i remaining rg)[j]? =
        if i ≤ j then (inputs.map (fun t => t.requires_grad))[j]? else rg[j]? := by
  induction remaining with
  | zero =>
    intro i rg hi hlen
    refine ⟨by simpa [AddN.Capture.loop] using hlen, fun j => ?_⟩
    simp only [AddN.Capture.loop]
    split
    · rw [List.getElem?_eq_none (by omega), List.getElem?_eq_none (by simp; omega)]
    · rfl
  | succ r ih =>
    intro i rg hi hlen
    have hlt : i < inputs.length := by omega
    have hget : inputs.get? i = some (inputs.get ⟨i, hlt⟩) := List.get?_eq_get hlt
    simp only [AddN.Capture.loop, hget]
    obtain ⟨h1, h2⟩ := ih (i + 1) (rg.set i (inputs.get ⟨i, hlt⟩).requires_grad) (by omega)
      (by simpa using hlen)
    refine ⟨h1, fun j => ?_⟩
    rw [h2 j]
    by_cases hj : i + 1 ≤ j
    · rw [if_pos hj, if_pos (by omega)]
    · rw [if_neg hj]
      by_cases hij : i = j
      · subst hij
        rw [if_pos (Nat.le_refl _), List.getElem?_set_self (by omega)]
        simp [List.getElem?_eq_getElem hlt]
      · rw [if_neg (by omega), List.getElem?_set_ne hij]

theorem AddN.Capture_requires_grad (ctx : AddNCaptureState) (inputs : List GradTensor) :
    (AddN.Capture ctx inputs).requires_grad = inputs.map (fun t => t.requires_grad) := by
  obtain ⟨h1, h2⟩ := AddN.Capture.loop_getElem? inputs inputs.length 0
    (vectorResize ctx.requires_grad inputs.length false) (by omega) (vectorResize_length _ _ _)
  apply List.ext_getElem? 
  intro j
  simp only [AddN.Capture]
  rw [h2 j, if_pos (Nat.zero_le _)]

/-- The loop of `Apply` sets the entries from `i` on whose flag is true to `out_grads[0]` and
leaves every other entry as it was. -/
theorem AddN.Apply.loop_spec (ctx : AddNCaptureState) (g : Option GradTensor)
    (remaining : Nat) :
    ∀ (i : Nat) (in_grads : TensorTuple), i + remaining = ctx.requires_grad.length →
      in_grads.length = ctx.requires_grad.length →
      ∃ res, AddN.Apply.loop ctx [g] i remaining in_grads = .ok res ∧
        res.length = ctx.requires_grad.length ∧
        ∀ j, res[j]? =
          if i ≤ j ∧ ctx.requires_grad[j]? = some true then some g else in_grads[j]? := by
  induction remaining with
  | zero =>
    intro i in_grads hi hlen
    refine ⟨in_grads, rfl, hlen, fun j => ?_⟩
    split
    · rename_i h
      have := h.2
      rw [List.getElem?_eq_none (by omega)] at this
      cases this
    · rfl
  | succ r ih =>
    intro i in_grads hi hlen
    have hlt : i < ctx.requires_grad.length := by omega
    have hget : ctx.requires_grad.get? i = some (ctx.requires_grad.get ⟨i, hlt⟩) :=
      List.get?_eq_get hlt
    have hget2 : ctx.requires_grad[i]? = some (ctx.requires_grad.get ⟨i, hlt⟩) := by
      rw [← List.get?_eq_getElem?]; exact hget
    cases hflag : ctx.requires_grad.get ⟨i, hlt⟩ with
    | true =>
      rw [hflag] at hget hget2
      obtain ⟨res, hres, hl, hpt⟩ := ih (i + 1) (in_grads.set i g) (by omega)
        (by simpa using hlen)
      refine ⟨res, ?_, hl, fun j => ?_⟩
      · simp only [AddN.Apply.loop, hget, hlen, hlt, if_true]
        exact hres
      · rw [hpt j]
        by_cases hij : i = j
        · subst hij
          simp [hget2, List.getElem?_set_self (show i < in_grads.length by omega)]
        · rw [List.getElem?_set_ne hij]
          by_cases hj : i + 1 ≤ j
          · have : i ≤ j := by omega
            simp [hj, this]
          · have : ¬ i ≤ j := by omega
            simp [hj, this]
    | false =>
      rw [hflag] at hget hget2
      obtain ⟨res, hres, hl, hpt⟩ := ih (i + 1) in_grads (by omega) hlen
      refine ⟨res, ?_, hl, fun j => ?_⟩
      · simp only [AddN.Apply.loop, hget]
        exact hres
      · rw [hpt j]
        by_cases hij : i = j
        · subst hij
          simp [hget2]
        · by_cases hj : i + 1 ≤ j
          · have : i ≤ j := by omega
            simp [hj, this]
          · have : ¬ i ≤ j := by omega
            simp [hj, this]

theorem wrapInt32_natCast {n : Nat} (hn : n < 2 ^ 31) : wrapInt32 (n : Int) = n := by
  unfold wrapInt32
  rw [Int.emod_eq_of_lt (by omega) (by omega)]
  omega

theorem toSizeT_natCast {n : Nat} (hn : n < 2 ^ 31) : toSizeT (n : Int) = n := by
  unfold toSizeT
  rw [Int.emod_eq_of_lt (by omega) (by omega)]
  simp

/-- C20. `AddN::Capture` followed by `AddN::Apply`, for every tuple of `n` input tensors
(`n` below `2 ^ 31`, the range of the `int32_t` member `input_num`) and every `out_grads` of
size exactly 1: `Apply` returns Ok and leaves `in_grads` with size `n`, where entry `i` is
`out_grads[0]` when input `i` had `requires_grad` true and is otherwise the entry the resize
left there, which `Apply` does not assign; starting from an empty `in_grads` these entries are
null (not set). `Apply` returns the check-failed error, for every captured state and every
`in_grads`, whenever `out_grads.size() != 1`. -/
theorem AddN_Capture_Apply (ctx0 : AddNCaptureState) (inputs : List GradTensor)
    (g : Option GradTensor) (in_grads0 : TensorTuple) (hn : inputs.length < 2 ^ 31) :
    (∃ in_grads, AddN.Apply (AddN.Capture ctx0 inputs) [g] in_grads0 = .ok in_grads ∧
      in_grads.length = inputs.length ∧
      ∀ i (hi : i < inputs.length), in_grads[i]? =
        if (inputs.get ⟨i, hi⟩).requires_grad = true then some g
        else (vectorResize in_grads0 inputs.length none)[i]?) ∧
    (∃ in_grads, AddN.Apply (AddN.Capture ctx0 inputs) [g] [] = .ok in_grads ∧
      in_grads.length = inputs.length ∧
      ∀ i (hi : i < inputs.length), in_grads[i]? =
        some (if (inputs.get ⟨i, hi⟩).requires_grad = true then g else none)) ∧
    (∀ (ctx : AddNCaptureState) (out_grads in_grads : TensorTuple), out_grads.length ≠ 1 →
      AddN.Apply ctx out_grads in_grads = .error (.CheckFailedError "out_grads.size() == 1")) := by
  have hrg := AddN.Capture_requires_grad ctx0 inputs
  have hnum : (AddN.Capture ctx0 inputs).input_num = (inputs.length : Int) := by
    simp only [AddN.Capture]
    exact wrapInt32_natCast hn
  have hrglen : (AddN.Capture ctx0 inputs).requires_grad.length = inputs.length := by
    rw [hrg]; simp
  have main : ∀ ig0 : TensorTuple,
      ∃ in_grads, AddN.Apply (AddN.Capture ctx0 inputs) [g] ig0 = .ok in_grads ∧
        in_grads.length = inputs.length ∧
        ∀ i (hi : i < inputs.length), in_grads[i]? =
          if (inputs.get ⟨i, hi⟩).requires_grad = true then some g
          else (vectorResize ig0 inputs.length none)[i]? := by
    intro ig0
    obtain ⟨res, hres, hl, hpt⟩ := AddN.Apply.loop_spec (AddN.Capture ctx0 inputs) g
      inputs.length 0 (vectorResize ig0 inputs.length none) (by omega)
      (by rw [vectorResize_length, hrglen])
    refine ⟨res, ?_, by rw [hl, hrglen], fun i hi => ?_⟩
    · unfold AddN.Apply
      simp only [List.length_singleton, ne_eq, not_true_eq_false, if_false, hnum,
        toSizeT_natCast hn, Int.toNat_ofNat]
      exact hres
    · rw [hpt i, hrg]
      simp only [Nat.zero_le, true_and, List.getElem?_map, List.getElem?_eq_getElem hi,
        Option.map_some', Option.some.injEq, List.get_eq_getElem]
  refine ⟨main in_grads0, ?_, ?_⟩
  · obtain ⟨res, hres, hl, hpt⟩ := main []
    refine ⟨res, hres, hl, fun i hi => ?_⟩
    rw [hpt i hi, vectorResize_nil_getElem? _ _ _ hi]
    split <;> rfl
  · intro ctx out_grads in_grads hne
    simp [AddN.Apply, hne]

/-- Witness for C20: three inputs of which the first and the third require a gradient. -/
theorem AddN_Capture_Apply_witness :
    [exampleGradTensor 0 true, exampleGradTensor 1 false, exampleGradTensor 2 true].length
      < 2 ^ 31 ∧
    AddN.Apply
        (AddN.Capture ⟨0, []⟩
          [exampleGradTensor 0 true, exampleGradTensor 1 false, exampleGradTensor 2 true])
        [some (exampleGradTensor 9 false)] [] =
      .ok [some (exampleGradTensor 9 false), none, some (exampleGradTensor 9 false)] ∧
    ∃ in_grads,
      AddN.Apply
          (AddN.Capture ⟨0, []⟩
            [exampleGradTensor 0 true, exampleGradTensor 1 false, exampleGradTensor 2 true])
          [some (exampleGradTensor 9 false)] [] = .ok in_grads ∧
        in_grads.length = 3 :=
  ⟨by decide, rfl,
    let ⟨r, h1, h2, _⟩ := (AddN_Capture_Apply ⟨0, []⟩
      [exampleGradTensor 0 true, exampleGradTensor 1 false, exampleGradTensor 2 true]
      (some (exampleGradTensor 9 false)) [] (by decide)).2.1
    ⟨r, h1, h2⟩⟩

/-! ## Theorems: the traversal state of the to-contiguous kernel -/

theorem wrapInt64_modEq (x : Int) : wrapInt64 x ≡ x [ZMOD 2 ^ 64] := by
  unfold wrapInt64
  have h : (x + 2 ^ 63) % 2 ^ 64 ≡ x + 2 ^ 63 [ZMOD 2 ^ 64] := Int.mod_modEq _ _
  have h2 := h.sub_right (2 ^ 63)
  simpa using h2

theorem wrapInt64_congr {x y : Int} (h : x ≡ y [ZMOD 2 ^ 64]) : wrapInt64 x = wrapInt64 y := by
  unfold wrapInt64
  have h2 : (x + 2 ^ 63) % 2 ^ 64 = (y + 2 ^ 63) % 2 ^ 64 := h.add_right (2 ^ 63)
  rw [h2]

/-- A product of dimensions that are all at least 1 is at least 1. -/
theorem one_le_prod_of_one_le (l : List Int) (h : ∀ d ∈ l, 1 ≤ d) : 1 ≤ l.prod := by
  induction l with
  | nil => simp
  | cons d ds ih =>
    rw [List.prod_cons]
    have h1 : 1 ≤ d := h d (List.mem_cons_self _ _)
    have h2 : 1 ≤ ds.prod := ih (fun x hx => h x (List.mem_cons_of_mem _ hx))
    nlinarith

theorem prod_drop_pos (shape : List Int) (h : ∀ d ∈ shape, 1 ≤ d) (i : Nat) :
    1 ≤ (shape.drop i).prod :=
  one_le_prod_of_one_le _ (fun d hd => h d (List.mem_of_mem_drop hd))

theorem prod_drop_succ (shape : List Int) (i : Nat) (hi : i < shape.length) :
    (shape.drop i).prod = shape.getD i 0 * (shape.drop (i + 1)).prod := by
  rw [List.drop_eq_getElem_cons hi, List.prod_cons, List.getD_eq_getElem _ _ hi]

theorem prod_drop_le (shape : List Int) (h : ∀ d ∈ shape, 1 ≤ d) (i : Nat) :
    (shape.drop i).prod ≤ shape.prod := by
  have h1 : 1 ≤ (shape.take i).prod :=
    one_le_prod_of_one_le _ (fun d hd => h d (List.mem_of_mem_take hd))
  have h2 := prod_drop_pos shape h i
  have h3 : (shape.take i).prod * (shape.drop i).prod = shape.prod :=
    List.prod_take_mul_prod_drop shape i
  nlinarith

theorem getD_le_prod (shape : List Int) (h : ∀ d ∈ shape, 1 ≤ d) (i : Nat)
    (hi : i < shape.length) : shape.getD i 0 ≤ shape.prod := by
  have h1 := prod_drop_le shape h i
  have h2 := prod_drop_succ shape i hi
  have h3 := prod_drop_pos shape h (i + 1)
  have h4 : 1 ≤ shape.getD i 0 := by
    rw [List.getD_eq_getElem _ _ hi]
    exact h _ (List.getElem_mem hi)
  nlinarith

theorem rowMajorStride_cons (d : Int) (ds : List Int) :
    rowMajorStride (d :: ds) = ds.prod :: rowMajorStride ds := by
  simp [rowMajorStride, List.range_succ_eq_map, List.map_map, Function.comp]

theorem rowMajorStride_length (shape : List Int) :
    (rowMajorStride shape).length = shape.length := by
  simp [rowMajorStride]

theorem rowMajorStride_getD (shape : List Int) (j : Nat) (hj : j < shape.length) :
    (rowMajorStride shape).getD j 0 = (shape.drop (j + 1)).prod := by
  simp [rowMajorStride, hj]

theorem dotIndex_set (idx : List Int) : ∀ (w : List Int) (i : Nat) (v : Int),
    i < idx.length →
    dotIndex (idx.set i v) w = dotIndex idx w + (v - idx.getD i 0) * w.getD i 0 := by
  induction idx with
  | nil => intro w i v hi; simp at hi
  | cons a rest ih =>
    intro w i v hi
    cases w with
    | nil => cases i <;> simp [dotIndex]
    | cons b ws =>
      cases i with
      | zero => simp [dotIndex]; ring
      | succ i =>
        have := ih ws i v (by simpa using hi)
        simp only [List.set_cons_succ, dotIndex, this, List.getD_cons_succ]
        ring

theorem IndexInShape.length_eq {index shape : List Int} (h : IndexInShape index shape) :
    index.length = shape.length :=
  List.Forall₂.length_eq h

theorem IndexInShape.getD {index shape : List Int} (h : IndexInShape index shape) :
    ∀ i, i < shape.length → 0 ≤ index.getD i 0 ∧ index.getD i 0 < shape.getD i 0 := by
  induction h with
  | nil => intro i hi; simp at hi
  | cons hab _ ih =>
    intro i hi
    cases i with
    | zero => simpa using hab
    | succ i => simpa using ih i (by simpa using hi)

theorem IndexInShape.set {index shape : List Int} (h : IndexInShape index shape) :
    ∀ (i : Nat) (v : Int), 0 ≤ v → v < shape.getD i 0 → IndexInShape (index.set i v) shape := by
  induction h with
  | nil => intro i v _ _; exact List.Forall₂.nil
  | cons hab hrest ih =>
    intro i v h0 h1
    cases i with
    | zero => exact List.Forall₂.cons ⟨h0, by simpa using h1⟩ hrest
    | succ i => exact List.Forall₂.cons hab (ih i v h0 (by simpa using h1))

theorem IndexInShape.replicate_zero (shape : List Int) (h : ∀ d ∈ shape, 1 ≤ d) :
    IndexInShape (List.replicate shape.length 0) shape := by
  induction shape with
  | nil => exact List.Forall₂.nil
  | cons d ds ih =>
    refine List.Forall₂.cons ⟨le_refl _, ?_⟩ (ih (fun x hx => h x (List.mem_cons_of_mem _ hx)))
    have := h d (List.mem_cons_self _ _)
    omega

/-- The offset of an index vector in the contiguous layout lies below the element count. -/
theorem IndexInShape.dot_bounds {index shape : List Int} (h : IndexInShape index shape) :
    0 ≤ dotIndex index (rowMajorStride shape) ∧
      dotIndex index (rowMajorStride shape) ≤ shape.prod - 1 := by
  induction h with
  | nil => simp [dotIndex, rowMajorStride]
  | @cons a d idx ds hab hrest ih =>
    rw [rowMajorStride_cons, dotIndex, List.prod_cons]
    obtain ⟨h0, h1⟩ := hab
    obtain ⟨h2, h3⟩ := ih
    have hP : 0 ≤ ds.prod := by linarith
    constructor
    · have := mul_nonneg h0 hP
      linarith
    · have : a * ds.prod ≤ (d - 1) * ds.prod := mul_le_mul_of_nonneg_right (by omega) hP
      nlinarith

theorem IndexInShape.eq_zero_of_dot_eq_zero {index shape : List Int}
    (h : IndexInShape index shape) (hdot : dotIndex index (rowMajorStride shape) = 0) :
    index = List.replicate shape.length 0 := by
  induction h with
  | nil => rfl
  | @cons a d idx ds hab hrest ih =>
    rw [rowMajorStride_cons, dotIndex] at hdot
    obtain ⟨h0, h1⟩ := hab
    obtain ⟨h2, h3⟩ := IndexInShape.dot_bounds hrest
    have hP : 1 ≤ ds.prod := by linarith
    have ha : a = 0 := by
      by_contra hne
      have h1a : 1 ≤ a := by omega
      have : 1 * 1 ≤ a * ds.prod := mul_le_mul h1a hP (by norm_num) h0
      linarith
    subst ha
    simp only [zero_mul, zero_add] at hdot
    rw [List.length_cons, List.replicate_succ, ih hdot]

theorem wrapInt64_idem (x : Int) : wrapInt64 (wrapInt64 x) = wrapInt64 x :=
  wrapInt64_congr (wrapInt64_modEq x)

theorem list_eq_of_getD_eq (l1 l2 : List Int) (hlen : l1.length = l2.length)
    (h : ∀ j, j < l1.length → l1.getD j 0 = l2.getD j 0) : l1 = l2 := by
  apply List.ext_get hlen
  intro j h1 h2
  have := h j h1
  rw [List.getD_eq_getElem _ _ h1, List.getD_eq_getElem _ _ h2] at this
  simpa using this

theorem getD_set_eq (l : List Int) (i : Nat) (v : Int) (hi : i < l.length) :
    (l.set i v).getD i 0 = v := by
  simp [List.getElem?_set_self hi]

theorem getD_set_ne (l : List Int) (i j : Nat) (v : Int) (hij : i ≠ j) :
    (l.set i v).getD j 0 = l.getD j 0 := by
  simp [List.getElem?_set_ne hij]

/-- The loop of the constructor, entered at axis `i - 1` with `element_count` the product of
the dimensions after it and `out_stride` filled in from axis `i` on, ends with `element_count`
the product of all dimensions and `out_stride` the row-major strides. -/
theorem ToContiguousUtilBase.init_loop_spec (shape stride : List Int)
    (hpos : ∀ d ∈ shape, 1 ≤ d) (hN : shape.prod < 2 ^ 63) :
    ∀ (i : Nat), i ≤ shape.length → ∀ (b e : Int) (os : List Int),
      e = (shape.drop i).prod → os.length = shape.length →
      (∀ j, i ≤ j → j < shape.length → os.getD j 0 = (shape.drop (j + 1)).prod) →
      (ToContiguousUtilBase.init_loop shape stride i (b, e, os)).2.1 = shape.prod ∧
      (ToContiguousUtilBase.init_loop shape stride i (b, e, os)).2.2 = rowMajorStride shape := by
  intro i
  induction i with
  | zero =>
    intro _ b e os he hlen hos
    refine ⟨by simpa [ToContiguousUtilBase.init_loop] using he, ?_⟩
    simp only [ToContiguousUtilBase.init_loop]
    apply list_eq_of_getD_eq _ _ (by rw [hlen, rowMajorStride_length])
    intro j hj
    rw [hos j (Nat.zero_le _) (by omega), rowMajorStride_getD _ _ (by omega)]
  | succ i ih =>
    intro hi b e os he hlen hos
    have hilt : i < shape.length := by omega
    have he' : wrapInt64 (e * shape.getD i 0) = (shape.drop i).prod := by
      have h1 := prod_drop_succ shape i hilt
      have h2 := prod_drop_pos shape hpos i
      have h3 := prod_drop_le shape hpos i
      rw [he, mul_comm, ← h1]
      exact wrapInt64_eq_self (by omega) (by omega)
    have hos' : ∀ j, i ≤ j → j < shape.length →
        (os.set i e).getD j 0 = (shape.drop (j + 1)).prod := by
      intro j hij hj
      by_cases h : i = j
      · subst h
        rw [getD_set_eq _ _ _ (by omega), he]
      · rw [getD_set_ne _ _ _ _ h]
        exact hos j (by omega) hj
    simp only [ToContiguousUtilBase.init_loop]
    split
    · exact ih (by omega) _ _ _ he' (by simpa using hlen) hos'
    · exact ih (by omega) _ _ _ he' (by simpa using hlen) hos'

/-- The loop of `finish_stride`, entered at axis `i - 1` on an index vector that lies in the
shape: the fields other than `index` and the offsets are kept, the index stays in the shape,
its offset in the contiguous layout grows by the stride of axis `i - 1` (less the element
count when the loop runs off the first axis), and each offset moves, modulo `2 ^ 64`, by the
change of its weighted sum and stays a value of `int64_t`. -/
theorem ToContiguousUtilBase.finish_stride_loop_spec (shape stride : List Int)
    (hpos : ∀ d ∈ shape, 1 ≤ d) (hN : shape.prod < 2 ^ 63) :
    ∀ (i : Nat), i ≤ shape.length → ∀ s : ToContiguousUtilBase,
      s.in_shape = shape → s.in_stride = stride → s.out_stride = rowMajorStride shape →
      IndexInShape s.index shape →
      (ToContiguousUtilBase.finish_stride_loop i s).1.in_shape = shape ∧
      (ToContiguousUtilBase.finish_stride_loop i s).1.in_stride = stride ∧
      (ToContiguousUtilBase.finish_stride_loop i s).1.out_stride = rowMajorStride shape ∧
      (ToContiguousUtilBase.finish_stride_loop i s).1.block_size = s.block_size ∧
      (ToContiguousUtilBase.finish_stride_loop i s).1.element_count = s.element_count ∧
      (ToContiguousUtilBase.finish_stride_loop i s).1.contiguous_dim = s.contiguous_dim ∧
      IndexInShape (ToContiguousUtilBase.finish_stride_loop i s).1.index shape ∧
      dotIndex (ToContiguousUtilBase.finish_stride_loop i s).1.index (rowMajorStride shape) =
        dotIndex s.index (rowMajorStride shape) + (shape.drop i).prod -
          (if (ToContiguousUtilBase.finish_stride_loop i s).2 = true then shape.prod else 0) ∧
      (ToContiguousUtilBase.finish_stride_loop i s).1.in_offset ≡
        s.in_offset + dotIndex (ToContiguousUtilBase.finish_stride_loop i s).1.index stride -
          dotIndex s.index stride [ZMOD 2 ^ 64] ∧
      (ToContiguousUtilBase.finish_stride_loop i s).1.out_offset ≡
        s.out_offset +
          dotIndex (ToContiguousUtilBase.finish_stride_loop i s).1.index (rowMajorStride shape) -
          dotIndex s.index (rowMajorStride shape) [ZMOD 2 ^ 64] ∧
      (wrapInt64 s.in_offset = s.in_offset →
        wrapInt64 (ToContiguousUtilBase.finish_stride_loop i s).1.in_offset =
          (ToContiguousUtilBase.finish_stride_loop i s).1.in_offset) ∧
      (wrapInt64 s.out_offset = s.out_offset →
        wrapInt64 (ToContiguousUtilBase.finish_stride_loop i s).1.out_offset =
          (ToContiguousUtilBase.finish_stride_loop i s).1.out_offset) := by
  intro i
  induction i with
  | zero =>
    intro _ s h1 h2 h3 h4
    simp only [ToContiguousUtilBase.finish_stride_loop, List.drop_zero, if_true]
    refine ⟨h1, h2, h3, trivial, trivial, trivial, h4, by ring, ?_, ?_, fun h => h, fun h => h⟩
    · have : s.in_offset + dotIndex s.index stride - dotIndex s.index stride = s.in_offset := by
        ring
      rw [this]
    · have : s.out_offset + dotIndex s.index (rowMajorStride shape) -
          dotIndex s.index (rowMajorStride shape) = s.out_offset := by ring
      rw [this]
  | succ i ih =>
    intro hi s h1 h2 h3 h4
    have hilt : i < shape.length := by omega
    have hidx : i < s.index.length := by rw [h4.length_eq]; exact hilt
    obtain ⟨ha0, ha1⟩ := h4.getD i hilt
    have hd1 : 1 ≤ shape.getD i 0 := by
      rw [List.getD_eq_getElem _ _ hilt]
      exact hpos _ (List.getElem_mem hilt)
    have hdN := getD_le_prod shape hpos i hilt
    have hwd : wrapInt64 (shape.getD i 0 - 1) = shape.getD i 0 - 1 :=
      wrapInt64_eq_self (by omega) (by omega)
    have hU := prod_drop_succ shape i hilt
    have hW : (rowMajorStride shape).getD i 0 = (shape.drop (i + 1)).prod :=
      rowMajorStride_getD shape i hilt
    by_cases hmax : s.index.getD i 0 = shape.getD i 0 - 1
    · -- the axis is at its last position: it is reset and the loop goes on
      have hstep : ∃ s1 : ToContiguousUtilBase,
          ToContiguousUtilBase.finish_stride_loop (i + 1) s =
            ToContiguousUtilBase.finish_stride_loop i s1 ∧
          s1.in_shape = shape ∧ s1.in_stride = stride ∧
          s1.out_stride = rowMajorStride shape ∧ s1.block_size = s.block_size ∧
          s1.element_count = s.element_count ∧ s1.contiguous_dim = s.contiguous_dim ∧
          s1.index = s.index.set i 0 ∧
          s1.in_offset =
            wrapInt64 (s.in_offset - wrapInt64 (stride.getD i 0 * s.index.getD i 0)) ∧
          s1.out_offset = wrapInt64 (s.out_offset -
            wrapInt64 ((rowMajorStride shape).getD i 0 * s.index.getD i 0)) := by
        refine ⟨{ s with
            in_offset :=
              wrapInt64 (s.in_offset - wrapInt64 (s.in_stride.getD i 0 * s.index.getD i 0))
            out_offset :=
              wrapInt64 (s.out_offset - wrapInt64 (s.out_stride.getD i 0 * s.index.getD i 0))
            index := s.index.set i 0 }, ?_, h1, h2, h3, rfl, rfl, rfl, rfl, ?_, ?_⟩
        · rw [ToContiguousUtilBase.finish_stride_loop, h1, hwd, if_pos hmax]
        · simp only [h2]
        · simp only [h3]
      obtain ⟨s1, hs, g1, g2, g3, g4, g5, g6, g7, g8, g9⟩ := hstep
      rw [hs]
      have hs1 : IndexInShape s1.index shape := by
        rw [g7]
        exact h4.set i 0 (le_refl _) (by omega)
      have IH := ih (by omega) s1 g1 g2 g3 hs1
      generalize ToContiguousUtilBase.finish_stride_loop i s1 = r at IH ⊢
      obtain ⟨r1, r2, r3, r4, r5, r6, r7, r8, r9, r10, r11, r12⟩ := IH
      have hdotW := dotIndex_set s.index (rowMajorStride shape) i 0 hidx
      have hdotS := dotIndex_set s.index stride i 0 hidx
      rw [g7] at r8 r9 r10
      refine ⟨r1, r2, r3, r4.trans g4, r5.trans g5, r6.trans g6, r7, ?_, ?_, ?_,
        fun _ => r11 (by rw [g8, wrapInt64_idem]), fun _ => r12 (by rw [g9, wrapInt64_idem])⟩
      · rw [r8, hdotW, hW, hU, hmax]
        ring
      · refine r9.trans ?_
        rw [hdotS, g8]
        have e1 : wrapInt64 (s.in_offset - wrapInt64 (stride.getD i 0 * s.index.getD i 0)) ≡
            s.in_offset - stride.getD i 0 * s.index.getD i 0 [ZMOD 2 ^ 64] :=
          (wrapInt64_modEq _).trans ((Int.ModEq.refl _).sub (wrapInt64_modEq _))
        have e2 := (e1.add_right (dotIndex r.1.index stride)).sub_right
          (dotIndex s.index stride + (0 - s.index.getD i 0) * stride.getD i 0)
        refine e2.trans ?_
        have : s.in_offset - stride.getD i 0 * s.index.getD i 0 + dotIndex r.1.index stride -
            (dotIndex s.index stride + (0 - s.index.getD i 0) * stride.getD i 0) =
            s.in_offset + dotIndex r.1.index stride - dotIndex s.index stride := by
          ring
        rw [this]
      · refine r10.trans ?_
        rw [hdotW, g9]
        have e1 : wrapInt64 (s.out_offset -
            wrapInt64 ((rowMajorStride shape).getD i 0 * s.index.getD i 0)) ≡
            s.out_offset - (rowMajorStride shape).getD i 0 * s.index.getD i 0 [ZMOD 2 ^ 64] :=
          (wrapInt64_modEq _).trans ((Int.ModEq.refl _).sub (wrapInt64_modEq _))
        have e2 := (e1.add_right (dotIndex r.1.index (rowMajorStride shape))).sub_right
          (dotIndex s.index (rowMajorStride shape) +
            (0 - s.index.getD i 0) * (rowMajorStride shape).getD i 0)
        refine e2.trans ?_
        have : s.out_offset - (rowMajorStride shape).getD i 0 * s.index.getD i 0 +
            dotIndex r.1.index (rowMajorStride shape) -
            (dotIndex s.index (rowMajorStride shape) +
              (0 - s.index.getD i 0) * (rowMajorStride shape).getD i 0) =
            s.out_offset + dotIndex r.1.index (rowMajorStride shape) -
              dotIndex s.index (rowMajorStride shape) := by
          ring
        rw [this]
    · -- the axis advances by one and the loop is left
      have hstep : ToContiguousUtilBase.finish_stride_loop (i + 1) s =
          ({ s with
              index := s.index.set i (wrapInt64 (s.index.getD i 0 + 1))
              in_offset := wrapInt64 (s.in_offset + s.in_stride.getD i 0)
              out_offset := wrapInt64 (s.out_offset + s.out_stride.getD i 0) }, false) := by
        rw [ToContiguousUtilBase.finish_stride_loop, h1, hwd, if_neg hmax]
      have hinc : wrapInt64 (s.index.getD i 0 + 1) = s.index.getD i 0 + 1 :=
        wrapInt64_eq_self (by omega) (by omega)
      rw [hstep]
      simp only [hinc, Bool.false_eq_true, if_false, sub_zero]
      have hdotW := dotIndex_set s.index (rowMajorStride shape) i (s.index.getD i 0 + 1) hidx
      have hdotS := dotIndex_set s.index stride i (s.index.getD i 0 + 1) hidx
      refine ⟨h1, h2, h3, trivial, trivial, trivial, h4.set i _ (by omega) (by omega), ?_, ?_, ?_,
        fun _ => wrapInt64_idem _, fun _ => wrapInt64_idem _⟩
      · rw [hdotW, hW]
        ring
      · refine (wrapInt64_modEq _).trans ?_
        rw [hdotS, h2]
        have : s.in_offset + (dotIndex s.index stride +
            (s.index.getD i 0 + 1 - s.index.getD i 0) * stride.getD i 0) -
            dotIndex s.index stride = s.in_offset + stride.getD i 0 := by ring
        rw [this]
      · refine (wrapInt64_modEq _).trans ?_
        rw [hdotW, h3]
        have : s.out_offset + (dotIndex s.index (rowMajorStride shape) +
            (s.index.getD i 0 + 1 - s.index.getD i 0) * (rowMajorStride shape).getD i 0) -
            dotIndex s.index (rowMajorStride shape) =
            s.out_offset + (rowMajorStride shape).getD i 0 := by ring
        rw [this]

theorem rowMajorIndex_cons (d : Int) (ds : List Int) (k : Int) :
    rowMajorIndex (d :: ds) k = (k / ds.prod) % d :: rowMajorIndex ds k := by
  simp [rowMajorIndex, List.range_succ_eq_map, List.map_map, Function.comp]

/-- Adding a multiple of the element count does not change the row-major multi-index. -/
theorem rowMajorIndex_add_mul (ds : List Int) (hpos : ∀ d ∈ ds, 1 ≤ d) (a r : Int) :
    rowMajorIndex ds (a * ds.prod + r) = rowMajorIndex ds r := by
  unfold rowMajorIndex
  apply List.map_congr_left
  intro i hi
  have hilt : i < ds.length := List.mem_range.mp hi
  have hU := prod_drop_pos ds hpos (i + 1)
  have hsplit : ds.prod = (ds.take i).prod * (ds.getD i 1 * (ds.drop (i + 1)).prod) := by
    rw [← List.prod_take_mul_prod_drop ds i, List.drop_eq_getElem_cons hilt, List.prod_cons,
      List.getD_eq_getElem _ _ hilt]
  have hk : a * ds.prod + r =
      r + (a * (ds.take i).prod * ds.getD i 1) * (ds.drop (i + 1)).prod := by
    rw [hsplit]; ring
  rw [hk, Int.add_mul_ediv_right _ _ (by omega), mul_comm (a * (ds.take i).prod),
    mul_comm (ds.getD i 1), Int.add_mul_emod_self]

/-- An index vector in the shape is the row-major multi-index of its offset in the contiguous
layout. -/
theorem IndexInShape.eq_rowMajorIndex {index shape : List Int} (h : IndexInShape index shape) :
    index = rowMajorIndex shape (dotIndex index (rowMajorStride shape)) := by
  induction h with
  | nil => rfl
  | @cons a d idx ds hab hrest ih =>
    obtain ⟨h0, h1⟩ := hab
    obtain ⟨h2, h3⟩ := IndexInShape.dot_bounds hrest
    have hdpos : ∀ x ∈ ds, 1 ≤ x := by
      intro x hx
      obtain ⟨j, hj, rfl⟩ := List.getElem_of_mem hx
      have := IndexInShape.getD hrest j hj
      rw [List.getD_eq_getElem _ _ hj] at this
      omega
    rw [rowMajorStride_cons, dotIndex, rowMajorIndex_cons, rowMajorIndex_add_mul ds hdpos, ← ih]
    congr 1
    have hP : 0 < ds.prod := by linarith
    have e : a * ds.prod + dotIndex idx (rowMajorStride ds) =
        dotIndex idx (rowMajorStride ds) + a * ds.prod := by ring
    rw [e, Int.add_mul_ediv_right _ _ (by omega),
      Int.ediv_eq_zero_of_lt h2 (by omega), zero_add, Int.emod_eq_of_lt h0 h1]

theorem ToContiguousUtilBase.new_spec (shape stride : List Int)
    (hpos : ∀ d ∈ shape, 1 ≤ d) (hN : shape.prod < 2 ^ 63) :
    (ToContiguousUtilBase.new shape stride).in_shape = shape ∧
    (ToContiguousUtilBase.new shape stride).in_stride = stride ∧
    (ToContiguousUtilBase.new shape stride).out_stride = rowMajorStride shape ∧
    (ToContiguousUtilBase.new shape stride).element_count = shape.prod ∧
    (ToContiguousUtilBase.new shape stride).contiguous_dim = (shape.length : Int) - 1 ∧
    (ToContiguousUtilBase.new shape stride).index = List.replicate shape.length 0 ∧
    (ToContiguousUtilBase.new shape stride).in_offset = 0 ∧
    (ToContiguousUtilBase.new shape stride).out_offset = 0 := by
  have hn : ((shape.length : Int) - 1 + 1).toNat = shape.length := by simp
  obtain ⟨h1, h2⟩ := ToContiguousUtilBase.init_loop_spec shape stride hpos hN shape.length
    (le_refl _) 1 1 (List.replicate shape.length 0) (by simp) (by simp)
    (fun j h1 h2 => by omega)
  simp only [ToContiguousUtilBase.new, hn, h1, h2, and_self]

theorem dotIndex_replicate_zero (m : Nat) (w : List Int) :
    dotIndex (List.replicate m 0) w = 0 := by
  induction m generalizing w with
  | zero => cases w <;> rfl
  | succ m ih =>
    cases w with
    | nil => rfl
    | cons b ws => simp [List.replicate_succ, dotIndex, ih]

/-- One call of `finish_stride` on a state whose index lies in the shape and whose offsets are
those of the index: the index moves to the next position in row-major order, or back to the
first one after the last, and the call returns true exactly in the second case; the offsets
are again those of the index. -/
theorem ToContiguousUtilBase.finish_stride_spec (shape stride : List Int)
    (hpos : ∀ d ∈ shape, 1 ≤ d) (hN : shape.prod < 2 ^ 63) (s : ToContiguousUtilBase)
    (h1 : s.in_shape = shape) (h2 : s.in_stride = stride)
    (h3 : s.out_stride = rowMajorStride shape)
    (h5 : s.contiguous_dim = (shape.length : Int) - 1)
    (h4 : IndexInShape s.index shape)
    (hout : s.out_offset = dotIndex s.index (rowMajorStride shape))
    (hin : s.in_offset = wrapInt64 (dotIndex s.index stride)) :
    s.finish_stride.1.in_shape = shape ∧ s.finish_stride.1.in_stride = stride ∧
    s.finish_stride.1.out_stride = rowMajorStride shape ∧
    s.finish_stride.1.contiguous_dim = (shape.length : Int) - 1 ∧
    s.finish_stride.1.block_size = s.block_size ∧
    s.finish_stride.1.element_count = s.element_count ∧
    IndexInShape s.finish_stride.1.index shape ∧
    s.finish_stride.1.out_offset = dotIndex s.finish_stride.1.index (rowMajorStride shape) ∧
    s.finish_stride.1.in_offset = wrapInt64 (dotIndex s.finish_stride.1.index stride) ∧
    (dotIndex s.index (rowMajorStride shape) + 1 < shape.prod →
      s.finish_stride.2 = false ∧
      dotIndex s.finish_stride.1.index (rowMajorStride shape) =
        dotIndex s.index (rowMajorStride shape) + 1) ∧
    (dotIndex s.index (rowMajorStride shape) + 1 = shape.prod →
      s.finish_stride.2 = true ∧
      dotIndex s.finish_stride.1.index (rowMajorStride shape) = 0) := by
  have hn : (s.contiguous_dim + 1).toNat = shape.length := by rw [h5]; simp
  have hfs : s.finish_stride = ToContiguousUtilBase.finish_stride_loop shape.length s := by
    rw [ToContiguousUtilBase.finish_stride, hn]
  rw [hfs]
  have L := ToContiguousUtilBase.finish_stride_loop_spec shape stride hpos hN shape.length
    (le_refl _) s h1 h2 h3 h4
  generalize ToContiguousUtilBase.finish_stride_loop shape.length s = r at L ⊢
  obtain ⟨r1, r2, r3, r4, r5, r6, r7, r8, r9, r10, r11, r12⟩ := L
  obtain ⟨b0, b1⟩ := IndexInShape.dot_bounds h4
  obtain ⟨c0, c1⟩ := IndexInShape.dot_bounds r7
  rw [List.drop_length, List.prod_nil] at r8
  have hsout : wrapInt64 s.out_offset = s.out_offset := by
    rw [hout]; exact wrapInt64_eq_self (by omega) (by omega)
  have hsin : wrapInt64 s.in_offset = s.in_offset := by
    rw [hin]; exact wrapInt64_idem _
  have hrout : r.1.out_offset = dotIndex r.1.index (rowMajorStride shape) := by
    rw [← r12 hsout, wrapInt64_congr r10, hout]
    have : dotIndex s.index (rowMajorStride shape) + dotIndex r.1.index (rowMajorStride shape) -
        dotIndex s.index (rowMajorStride shape) = dotIndex r.1.index (rowMajorStride shape) := by
      ring
    rw [this]
    exact wrapInt64_eq_self (by omega) (by omega)
  have hrin : r.1.in_offset = wrapInt64 (dotIndex r.1.index stride) := by
    rw [← r11 hsin, wrapInt64_congr r9, hin]
    apply wrapInt64_congr
    have e := ((wrapInt64_modEq (dotIndex s.index stride)).add_right
      (dotIndex r.1.index stride)).sub_right (dotIndex s.index stride)
    refine e.trans ?_
    have : dotIndex s.index stride + dotIndex r.1.index stride - dotIndex s.index stride =
        dotIndex r.1.index stride := by ring
    rw [this]
  refine ⟨r1, r2, r3, r6.trans h5, r4, r5, r7, hrout, hrin, ?_, ?_⟩
  · intro hlt
    cases hb : r.2 with
    | true =>
      rw [hb] at r8
      simp only [if_true] at r8
      omega
    | false =>
      rw [hb] at r8
      simp only [Bool.false_eq_true, if_false] at r8
      exact ⟨rfl, by omega⟩
  · intro heq
    cases hb : r.2 with
    | true =>
      rw [hb] at r8
      simp only [if_true] at r8
      exact ⟨rfl, by omega⟩
    | false =>
      rw [hb] at r8
      simp only [Bool.false_eq_true, if_false] at r8
      omega

/-- The state after `k` calls of `finish_stride` on a fresh object, for `k` below the element
count: the index lies in the shape, its offset in the contiguous layout is `k`, the offsets
are those of the index, and every call so far returned false. -/
theorem ToContiguousUtilBase.after_calls_spec (shape stride : List Int)
    (hpos : ∀ d ∈ shape, 1 ≤ d) (hN : shape.prod < 2 ^ 63) :
    ∀ k : Nat, (k : Int) < shape.prod →
      (ToContiguousUtilBase.after_calls k (ToContiguousUtilBase.new shape stride)).in_shape =
        shape ∧
      (ToContiguousUtilBase.after_calls k (ToContiguousUtilBase.new shape stride)).in_stride =
        stride ∧
      (ToContiguousUtilBase.after_calls k (ToContiguousUtilBase.new shape stride)).out_stride =
        rowMajorStride shape ∧
      (ToContiguousUtilBase.after_calls k (ToContiguousUtilBase.new shape stride)).contiguous_dim
        = (shape.length : Int) - 1 ∧
      (ToContiguousUtilBase.after_calls k (ToContiguousUtilBase.new shape stride)).block_size =
        (ToContiguousUtilBase.new shape stride).block_size ∧
      (ToContiguousUtilBase.after_calls k (ToContiguousUtilBase.new shape stride)).element_count
        = shape.prod ∧
      IndexInShape
        (ToContiguousUtilBase.after_calls k (ToContiguousUtilBase.new shape stride)).index shape ∧
      dotIndex (ToContiguousUtilBase.after_calls k (ToContiguousUtilBase.new shape stride)).index
        (rowMajorStride shape) = k ∧
      (ToContiguousUtilBase.after_calls k (ToContiguousUtilBase.new shape stride)).out_offset =
        k ∧
      (ToContiguousUtilBase.after_calls k (ToContiguousUtilBase.new shape stride)).in_offset =
        wrapInt64 (dotIndex
          (ToContiguousUtilBase.after_calls k (ToContiguousUtilBase.new shape stride)).index
          stride) ∧
      ∀ c : Nat, 1 ≤ c → c ≤ k →
        ToContiguousUtilBase.call_result c (ToContiguousUtilBase.new shape stride) = false := by
  obtain ⟨n1, n2, n3, n4, n5, n6, n7, n8⟩ := ToContiguousUtilBase.new_spec shape stride hpos hN
  have hz : IndexInShape (List.replicate shape.length 0) shape :=
    IndexInShape.replicate_zero shape hpos
  have hdz : ∀ w : List Int, dotIndex (List.replicate shape.length 0) w = 0 :=
    fun w => dotIndex_replicate_zero _ w
  intro k
  induction k with
  | zero =>
    intro _
    simp only [ToContiguousUtilBase.after_calls]
    refine ⟨n1, n2, n3, n5, trivial, n4, by rw [n6]; exact hz, by rw [n6, hdz]; rfl, by rw [n8]; rfl,
      by rw [n7, n6, hdz]; rfl, fun c h1 h2 => by omega⟩
  | succ k ih =>
    intro hk
    obtain ⟨a1, a2, a3, a4, a5, a6, a7, a8, a9, a10, a11⟩ := ih (by push_cast at hk; omega)
    have S := ToContiguousUtilBase.finish_stride_spec shape stride hpos hN
      (ToContiguousUtilBase.after_calls k (ToContiguousUtilBase.new shape stride))
      a1 a2 a3 a4 a7 (by rw [a9, a8]) a10
    have hcr : ToContiguousUtilBase.call_result (k + 1) (ToContiguousUtilBase.new shape stride) =
        (ToContiguousUtilBase.after_calls k
          (ToContiguousUtilBase.new shape stride)).finish_stride.2 := rfl
    simp only [ToContiguousUtilBase.after_calls]
    generalize ToContiguousUtilBase.after_calls k (ToContiguousUtilBase.new shape stride) = sk
      at *
    obtain ⟨s1, s2, s3, s4, s5, s6, s7, s8, s9, s10, -⟩ := S
    obtain ⟨hfalse, hdot⟩ := s10 (by rw [a8]; push_cast at hk; omega)
    refine ⟨s1, s2, s3, s4, s5.trans a5, s6.trans a6, s7, ?_, ?_, s9, ?_⟩
    · rw [hdot, a8]; push_cast; ring
    · rw [s8, hdot, a8]; push_cast; ring
    · intro c hc1 hc2
      by_cases hc : c ≤ k
      · exact a11 c hc1 hc
      · have : c = k + 1 := by omega
        subst this
        rw [hcr]
        exact hfalse

/-- C17. For every shape whose dimensions are all at least 1 and whose element count fits in
`int64_t`, and every `in_stride` vector of the same rank: after `k` calls of `finish_stride`
on a freshly constructed object, with `0 <= k < element_count` (the element count being the
product of the dimensions), `index` is the row-major multi-index of `k` in the shape, with
`0 <= index[i] < shape[i]` on every axis; `out_offset` is `k`, which is the sum of
`index[i] * out_stride[i]`, where `out_stride[i]` is the product of `shape[j]` for `j > i`; and
`in_offset` is the `int64_t` value of the sum of `index[i] * in_stride[i]`, hence that sum
whenever it fits in `int64_t`. -/
theorem ToContiguousUtilBase_odometer_state (shape in_stride : List Int)
    (hpos : ∀ d ∈ shape, 1 ≤ d) (_hrank : in_stride.length = shape.length)
    (hN : shape.prod < 2 ^ 63) (k : Nat) (hk : (k : Int) < shape.prod) :
    (ToContiguousUtilBase.new shape in_stride).element_count = shape.prod ∧
    (ToContiguousUtilBase.after_calls k (ToContiguousUtilBase.new shape in_stride)).index =
      rowMajorIndex shape k ∧
    (ToContiguousUtilBase.after_calls k (ToContiguousUtilBase.new shape in_stride)).index.length
      = shape.length ∧
    (∀ i, i < shape.length →
      0 ≤ (ToContiguousUtilBase.after_calls k
            (ToContiguousUtilBase.new shape in_stride)).index.getD i 0 ∧
      (ToContiguousUtilBase.after_calls k
            (ToContiguousUtilBase.new shape in_stride)).index.getD i 0 < shape.getD i 0) ∧
    (ToContiguousUtilBase.after_calls k (ToContiguousUtilBase.new shape in_stride)).out_offset =
      k ∧
    (ToContiguousUtilBase.after_calls k (ToContiguousUtilBase.new shape in_stride)).out_offset =
      dotIndex
        (ToContiguousUtilBase.after_calls k (ToContiguousUtilBase.new shape in_stride)).index
        (ToContiguousUtilBase.after_calls k
          (ToContiguousUtilBase.new shape in_stride)).out_stride ∧
    (∀ i, i < shape.length →
      (ToContiguousUtilBase.after_calls k
        (ToContiguousUtilBase.new shape in_stride)).out_stride.getD i 0 =
        (shape.drop (i + 1)).prod) ∧
    (ToContiguousUtilBase.after_calls k (ToContiguousUtilBase.new shape in_stride)).in_offset =
      wrapInt64 (dotIndex
        (ToContiguousUtilBase.after_calls k (ToContiguousUtilBase.new shape in_stride)).index
        in_stride) ∧
    (-2 ^ 63 ≤ dotIndex
        (ToContiguousUtilBase.after_calls k (ToContiguousUtilBase.new shape in_stride)).index
        in_stride →
      dotIndex
        (ToContiguousUtilBase.after_calls k (ToContiguousUtilBase.new shape in_stride)).index
        in_stride < 2 ^ 63 →
      (ToContiguousUtilBase.after_calls k (ToContiguousUtilBase.new shape in_stride)).in_offset =
        dotIndex
          (ToContiguousUtilBase.after_calls k (ToContiguousUtilBase.new shape in_stride)).index
          in_stride) := by
  obtain ⟨a1, a2, a3, a4, a5, a6, a7, a8, a9, a10, -⟩ :=
    ToContiguousUtilBase.after_calls_spec shape in_stride hpos hN k hk
  have hnew := (ToContiguousUtilBase.new_spec shape in_stride hpos hN).2.2.2.1
  generalize ToContiguousUtilBase.after_calls k (ToContiguousUtilBase.new shape in_stride) = s
    at *
  refine ⟨hnew, ?_, a7.length_eq, a7.getD, a9, by rw [a9, a3, a8], ?_, a10, ?_⟩
  · have := IndexInShape.eq_rowMajorIndex a7
    rw [a8] at this
    exact this
  · intro i hi
    rw [a3, rowMajorStride_getD _ _ hi]
  · intro h0 h1
    rw [a10, wrapInt64_eq_self h0 h1]

/-- Witness for C17: the shape `[2,1,3]` read with strides `[10,7,2]`, after 4 calls. -/
theorem ToContiguousUtilBase_odometer_state_witness :
    (∀ d ∈ [(2 : Int), 1, 3], 1 ≤ d) ∧ [(10 : Int), 7, 2].length = [(2 : Int), 1, 3].length ∧
    [(2 : Int), 1, 3].prod < 2 ^ 63 ∧ ((4 : Nat) : Int) < [(2 : Int), 1, 3].prod ∧
    (ToContiguousUtilBase.after_calls 4 (ToContiguousUtilBase.new [2, 1, 3] [10, 7, 2])).index =
      rowMajorIndex [2, 1, 3] (4 : Nat) ∧
    (ToContiguousUtilBase.after_calls 4 (ToContiguousUtilBase.new [2, 1, 3] [10, 7, 2])).out_offset
      = (4 : Nat) :=
  ⟨by decide, rfl, by decide, by decide,
    (ToContiguousUtilBase_odometer_state [2, 1, 3] [10, 7, 2] (by decide) rfl (by decide) 4
      (by decide)).2.1,
    (ToContiguousUtilBase_odometer_state [2, 1, 3] [10, 7, 2] (by decide) rfl (by decide) 4
      (by decide)).2.2.2.2.1⟩

theorem ToContiguousUtilBase.eq_of_fields (a b : ToContiguousUtilBase)
    (h1 : a.in_shape = b.in_shape) (h2 : a.in_stride = b.in_stride)
    (h3 : a.block_size = b.block_size) (h4 : a.element_count = b.element_count)
    (h5 : a.contiguous_dim = b.contiguous_dim) (h6 : a.out_stride = b.out_stride)
    (h7 : a.index = b.index) (h8 : a.in_offset = b.in_offset)
    (h9 : a.out_offset = b.out_offset) : a = b := by
  cases a
  cases b
  simp only [ToContiguousUtilBase.mk.injEq]
  exact ⟨h1, h2, h3, h4, h5, h6, h7, h8, h9⟩

/-- C18. For every shape whose dimensions are all at least 1 (the rank-0 shape included) and
whose element count fits in `int64_t`, and every `in_stride` vector of the same rank:
`element_count` is the product of the dimensions; on a freshly constructed object the calls of
`finish_stride` number `1` to `element_count - 1` return false and call number `element_count`
returns true; that call leaves `index` all zero and `in_offset == out_offset == 0`, indeed the
whole state as it was constructed. -/
theorem ToContiguousUtilBase_traversal_length (shape in_stride : List Int)
    (hpos : ∀ d ∈ shape, 1 ≤ d) (_hrank : in_stride.length = shape.length)
    (hN : shape.prod < 2 ^ 63) :
    (ToContiguousUtilBase.new shape in_stride).element_count = shape.prod ∧
    (∀ c : Nat, 1 ≤ c → (c : Int) < shape.prod →
      ToContiguousUtilBase.call_result c (ToContiguousUtilBase.new shape in_stride) = false) ∧
    ToContiguousUtilBase.call_result shape.prod.toNat (ToContiguousUtilBase.new shape in_stride)
      = true ∧
    (ToContiguousUtilBase.after_calls shape.prod.toNat
      (ToContiguousUtilBase.new shape in_stride)).index = List.replicate shape.length 0 ∧
    (ToContiguousUtilBase.after_calls shape.prod.toNat
      (ToContiguousUtilBase.new shape in_stride)).in_offset = 0 ∧
    (ToContiguousUtilBase.after_calls shape.prod.toNat
      (ToContiguousUtilBase.new shape in_stride)).out_offset = 0 ∧
    ToContiguousUtilBase.after_calls shape.prod.toNat (ToContiguousUtilBase.new shape in_stride)
      = ToContiguousUtilBase.new shape in_stride := by
  obtain ⟨n1, n2, n3, n4, n5, n6, n7, n8⟩ :=
    ToContiguousUtilBase.new_spec shape in_stride hpos hN
  have hN1 : 1 ≤ shape.prod := one_le_prod_of_one_le shape hpos
  obtain ⟨m, hm⟩ : ∃ m : Nat, shape.prod.toNat = m + 1 :=
    ⟨shape.prod.toNat - 1, by omega⟩
  have hmN : (m : Int) + 1 = shape.prod := by omega
  obtain ⟨a1, a2, a3, a4, a5, a6, a7, a8, a9, a10, a11⟩ :=
    ToContiguousUtilBase.after_calls_spec shape in_stride hpos hN m (by omega)
  have S := ToContiguousUtilBase.finish_stride_spec shape in_stride hpos hN
    (ToContiguousUtilBase.after_calls m (ToContiguousUtilBase.new shape in_stride))
    a1 a2 a3 a4 a7 (by rw [a9, a8]) a10
  have hcr : ToContiguousUtilBase.call_result (m + 1)
      (ToContiguousUtilBase.new shape in_stride) =
      (ToContiguousUtilBase.after_calls m
        (ToContiguousUtilBase.new shape in_stride)).finish_stride.2 := rfl
  have hac : ToContiguousUtilBase.after_calls (m + 1)
      (ToContiguousUtilBase.new shape in_stride) =
      (ToContiguousUtilBase.after_calls m
        (ToContiguousUtilBase.new shape in_stride)).finish_stride.1 := rfl
  rw [hm, hcr, hac]
  generalize ToContiguousUtilBase.after_calls m (ToContiguousUtilBase.new shape in_stride) = sm
    at *
  obtain ⟨s1, s2, s3, s4, s5, s6, s7, s8, s9, -, s11⟩ := S
  obtain ⟨htrue, hdot⟩ := s11 (by rw [a8]; exact hmN)
  have hidx : sm.finish_stride.1.index = List.replicate shape.length 0 :=
    IndexInShape.eq_zero_of_dot_eq_zero s7 hdot
  have hdz : dotIndex sm.finish_stride.1.index in_stride = 0 := by
    rw [hidx, dotIndex_replicate_zero]
  have hin : sm.finish_stride.1.in_offset = 0 := by
    rw [s9, hdz]; rfl
  have hout : sm.finish_stride.1.out_offset = 0 := by
    rw [s8, hdot]
  refine ⟨n4, ?_, htrue, hidx, hin, hout, ?_⟩
  · intro c hc1 hc2
    exact a11 c hc1 (by omega)
  · apply ToContiguousUtilBase.eq_of_fields
    · rw [s1, n1]
    · rw [s2, n2]
    · rw [s5, a5]
    · rw [s6, a6, n4]
    · rw [s4, n5]
    · rw [s3, n3]
    · rw [hidx, n6]
    · rw [hin, n7]
    · rw [hout, n8]

/-- Witness for C18: the shape `[2,1,3]` read with strides `[10,7,2]`; calls 1 to 5 return
false and call 6 returns true. -/
theorem ToContiguousUtilBase_traversal_length_witness :
    (∀ d ∈ [(2 : Int), 1, 3], 1 ≤ d) ∧ [(10 : Int), 7, 2].length = [(2 : Int), 1, 3].length ∧
    [(2 : Int), 1, 3].prod < 2 ^ 63 ∧
    (ToContiguousUtilBase.new [2, 1, 3] [10, 7, 2]).element_count = [(2 : Int), 1, 3].prod ∧
    ToContiguousUtilBase.call_result [(2 : Int), 1, 3].prod.toNat
      (ToContiguousUtilBase.new [2, 1, 3] [10, 7, 2]) = true :=
  ⟨by decide, rfl, by decide,
    (ToContiguousUtilBase_traversal_length [2, 1, 3] [10, 7, 2] (by decide) rfl (by decide)).1,
    (ToContiguousUtilBase_traversal_length [2, 1, 3] [10, 7, 2] (by decide) rfl
      (by decide)).2.2.1⟩

/-- C19 (the code at the failing inputs). For the transposed view of shape `[2,3,4]` with
strides `[4,8,1]` the constructor computes `block_size = 8`, while the longest trailing group of
axes laid out contiguously is the last axis alone, of 4 elements; for the transposed matrix of
shape `[3,4]` with strides `[1,3]` it computes `block_size = 3`, while not even the last axis is
contiguous (1 element). On the contiguous strides `[12,4,1]` both give 24. -/
theorem ToContiguousUtilBase_block_size_transposed :
    (ToContiguousUtilBase.new [2, 3, 4] [4, 8, 1]).block_size = 8 ∧
    contiguousBlockSize [2, 3, 4] [4, 8, 1] = 4 ∧
    (ToContiguousUtilBase.new [3, 4] [1, 3]).block_size = 3 ∧
    contiguousBlockSize [3, 4] [1, 3] = 1 ∧
    (ToContiguousUtilBase.new [2, 3, 4] [12, 4, 1]).block_size = 24 ∧
    contiguousBlockSize [2, 3, 4] [12, 4, 1] = 24 := by
  refine ⟨by decide, by decide, by decide, by decide, by decide, by decide⟩

/-! ## Theorems: the chain graph -/

theorem GroupTaskNodesByMachine.push_perm (groups : List (Int × List TaskNode)) (t : TaskNode) :
    ((GroupTaskNodesByMachine.push groups t).map Prod.snd).flatten.Perm
      ((groups.map Prod.snd).flatten ++ [t]) := by
  induction groups with
  | nil => simp [GroupTaskNodesByMachine.push]
  | cons g rest ih =>
    obtain ⟨m, ts⟩ := g
    by_cases h : m = t.machine_id
    · simp only [GroupTaskNodesByMachine.push, h, if_true, List.map_cons, List.flatten_cons]
      rw [List.append_assoc, List.append_assoc]
      exact List.Perm.append_left _ List.perm_append_comm
    · simp only [GroupTaskNodesByMachine.push, h, if_false, List.map_cons, List.flatten_cons]
      rw [List.append_assoc]
      exact List.Perm.append_left _ ih

theorem GroupTaskNodesByMachine.foldl_push_perm (l : List TaskNode) :
    ∀ acc : List (Int × List TaskNode),
      ((l.foldl GroupTaskNodesByMachine.push acc).map Prod.snd).flatten.Perm
        ((acc.map Prod.snd).flatten ++ l) := by
  induction l with
  | nil => intro acc; simp
  | cons t rest ih =>
    intro acc
    rw [List.foldl_cons]
    refine (ih _).trans ?_
    have := (GroupTaskNodesByMachine.push_perm acc t).append_right rest
    simpa using this

theorem MergeTaskNodes.step_perm (compatible : Chain → Chain → Bool) (cs : List Chain)
    (c : Chain) :
    ((MergeTaskNodes.step compatible cs c).map (fun x => x.nodes)).flatten.Perm
      ((cs.map (fun x => x.nodes)).flatten ++ c.nodes) := by
  induction cs with
  | nil => simp [MergeTaskNodes.step]
  | cons lhs rest ih =>
    by_cases h : lhs.stream_area_id = c.stream_area_id ∧ compatible lhs c = true
    · simp only [MergeTaskNodes.step, h, and_self, if_true, List.map_cons, List.flatten_cons,
        Chain.merge]
      rw [List.append_assoc, List.append_assoc]
      exact List.Perm.append_left _ List.perm_append_comm
    · simp only [MergeTaskNodes.step, h, if_false, List.map_cons, List.flatten_cons]
      rw [List.append_assoc]
      exact List.Perm.append_left _ ih

theorem MergeTaskNodes.foldl_step_perm (compatible : Chain → Chain → Bool) (cs : List Chain) :
    ∀ acc : List Chain,
      ((cs.foldl (MergeTaskNodes.step compatible) acc).map (fun x => x.nodes)).flatten.Perm
        ((acc.map (fun x => x.nodes)).flatten ++ (cs.map (fun x => x.nodes)).flatten) := by
  induction cs with
  | nil => intro acc; simp
  | cons c rest ih =>
    intro acc
    rw [List.foldl_cons]
    refine (ih _).trans ?_
    have := (MergeTaskNodes.step_perm compatible acc c).append_right
      (rest.map (fun x => x.nodes)).flatten
    simpa using this

theorem Chain.singleton_nodes_flatten (table : List (Nat × List Nat)) (ts : List TaskNode) :
    ((ts.map (Chain.singleton table)).map (fun x => x.nodes)).flatten = ts := by
  induction ts with
  | nil => rfl
  | cons t rest ih =>
    simp only [List.map_cons, List.flatten_cons, ih, Chain.singleton]
    rfl

theorem MergeTaskNodes_perm (compatible : Chain → Chain → Bool) (table : List (Nat × List Nat))
    (machine2tasks : List (Int × List TaskNode)) :
    (MergeTaskNodes compatible table machine2tasks).flatten.Perm
      (machine2tasks.map Prod.snd).flatten := by
  induction machine2tasks with
  | nil => simp [MergeTaskNodes]
  | cons mt rest ih =>
    have h1 := MergeTaskNodes.foldl_step_perm compatible (mt.2.map (Chain.singleton table)) []
    rw [Chain.singleton_nodes_flatten] at h1
    simp only [List.map_nil, List.flatten_nil, List.nil_append] at h1
    have : MergeTaskNodes compatible table (mt :: rest) =
        ((mt.2.map (Chain.singleton table)).foldl (MergeTaskNodes.step compatible) []).map
          (fun c => c.nodes) ++ MergeTaskNodes compatible table rest := by
      simp [MergeTaskNodes]
    rw [this, List.flatten_append, List.map_cons, List.flatten_cons]
    exact h1.append ih

/-- The chain nodes of the chain graph hold, between them, every task node of the task graph
once. -/
theorem ChainGraph.build_perm (compatible : Chain → Chain → Bool) (task_gph : TaskGraph) :
    ((ChainGraph.build compatible task_gph).chain_nodes.map ChainNode.TaskNodes).flatten.Perm
      task_gph.nodes := by
  have h1 := MergeTaskNodes_perm compatible task_gph.ancestorTable
    (GroupTaskNodesByMachine task_gph)
  have h2 := GroupTaskNodesByMachine.foldl_push_perm task_gph.nodes []
  simp only [List.map_nil, List.flatten_nil, List.nil_append] at h2
  have h3 : (ChainGraph.build compatible task_gph).chain_nodes.map ChainNode.TaskNodes =
      MergeTaskNodes compatible task_gph.ancestorTable (GroupTaskNodesByMachine task_gph) := by
    simp only [ChainGraph.build, InitChainNode, List.map_map]
    exact List.map_id _
  rw [h3]
  exact h1.trans h2

theorem lookup_nat_mem {ρ : Type} (l : List (Nat × ρ)) (k : Nat) (v : ρ)
    (h : l.lookup k = some v) : (k, v) ∈ l := by
  induction l with
  | nil => simp [List.lookup] at h
  | cons p rest ih =>
    obtain ⟨k0, v0⟩ := p
    by_cases hk : k = k0
    · subst hk
      simp [List.lookup] at h
      simp [h]
    · have hb : (k == k0) = false := by simpa using hk
      simp only [List.lookup, hb] at h
      exact List.mem_cons_of_mem _ (ih h)

theorem lookup_nat_isSome {ρ : Type} (l : List (Nat × ρ)) (k : Nat) (v : ρ)
    (h : (k, v) ∈ l) : ∃ v', l.lookup k = some v' := by
  induction l with
  | nil => simp at h
  | cons p rest ih =>
    obtain ⟨k0, v0⟩ := p
    by_cases hk : k = k0
    · subst hk
      exact ⟨v0, by simp [List.lookup]⟩
    · have hb : (k == k0) = false := by simpa using hk
      simp only [List.lookup, hb]
      apply ih
      rcases List.mem_cons.mp h with h | h
      · simp only [Prod.mk.injEq] at h
        exact absurd h.1 hk
      · exact h

/-- C12. For every task graph whose task nodes are distinct (a valid acyclic task graph in
particular), and whatever the test of compatibility used by the merge, the chain graph built
from it places every task node in exactly one chain node: `ChainNode4TaskNode` is defined for
every task node and gives a chain node of the graph that holds it; the `TaskNodes()` lists of
the chain nodes, taken together, are a rearrangement of the task nodes of the input; no list
repeats a task node; the lists of distinct chain nodes are disjoint; and every member of a
chain node is a task node of the input. -/
theorem ChainGraph_partition (compatible : Chain → Chain → Bool) (task_gph : TaskGraph)
    (hvalid : (task_gph.nodes.map (fun t => t.task_id)).Nodup) :
    (∀ t ∈ task_gph.nodes, ∃ c ∈ (ChainGraph.build compatible task_gph).chain_nodes,
      (ChainGraph.build compatible task_gph).ChainNode4TaskNode t = some c ∧
      t ∈ c.TaskNodes) ∧
    ((ChainGraph.build compatible task_gph).chain_nodes.map ChainNode.TaskNodes).flatten.Perm
      task_gph.nodes ∧
    (∀ c ∈ (ChainGraph.build compatible task_gph).chain_nodes, c.TaskNodes.Nodup) ∧
    (ChainGraph.build compatible task_gph).chain_nodes.Pairwise
      (fun c1 c2 => List.Disjoint c1.TaskNodes c2.TaskNodes) ∧
    (∀ c ∈ (ChainGraph.build compatible task_gph).chain_nodes, ∀ t ∈ c.TaskNodes,
      t ∈ task_gph.nodes) := by
  have hperm := ChainGraph.build_perm compatible task_gph
  have hnodup : task_gph.nodes.Nodup := List.Nodup.of_map _ hvalid
  have hinj := List.inj_on_of_nodup_map hvalid
  have hflat : ((ChainGraph.build compatible task_gph).chain_nodes.map
      ChainNode.TaskNodes).flatten.Nodup := hperm.nodup_iff.mpr hnodup
  have hmap : (ChainGraph.build compatible task_gph).task_node2chain_node_ =
      (ChainGraph.build compatible task_gph).chain_nodes.flatMap
        (fun c => c.task_nodes.map (fun t => (t.task_id, c))) := rfl
  have hmem : ∀ c ∈ (ChainGraph.build compatible task_gph).chain_nodes, ∀ t ∈ c.TaskNodes,
      t ∈ task_gph.nodes := by
    intro c hc t ht
    apply hperm.mem_iff.mp
    exact List.mem_flatten.mpr ⟨c.TaskNodes, List.mem_map.mpr ⟨c, hc, rfl⟩, ht⟩
  obtain ⟨hnd, hpw⟩ := List.nodup_flatten.mp hflat
  refine ⟨?_, hperm, ?_, ?_, hmem⟩
  · intro t ht
    have ht' := hperm.mem_iff.mpr ht
    obtain ⟨l, hl, htl⟩ := List.mem_flatten.mp ht'
    obtain ⟨c0, hc0, rfl⟩ := List.mem_map.mp hl
    have hentry : (t.task_id, c0) ∈
        (ChainGraph.build compatible task_gph).task_node2chain_node_ := by
      rw [hmap]
      exact List.mem_flatMap.mpr ⟨c0, hc0, List.mem_map.mpr ⟨t, htl, rfl⟩⟩
    obtain ⟨c, hc⟩ := lookup_nat_isSome _ _ _ hentry
    have hin := lookup_nat_mem _ _ _ hc
    rw [hmap] at hin
    obtain ⟨c1, hc1, hin1⟩ := List.mem_flatMap.mp hin
    obtain ⟨t1, ht1, heq⟩ := List.mem_map.mp hin1
    simp only [Prod.mk.injEq] at heq
    obtain ⟨hid, rfl⟩ := heq
    have : t1 = t := hinj (hmem c1 hc1 t1 ht1) ht hid
    subst this
    exact ⟨c1, hc1, hc, ht1⟩
  · intro c hc
    exact hnd _ (List.mem_map.mpr ⟨c, hc, rfl⟩)
  · exact List.pairwise_map.mp hpw

/-- Witness for C12: the example task graph; node 3 is found in a chain node of the graph. -/
theorem ChainGraph_partition_witness :
    (exampleTaskGraph.nodes.map (fun t => t.task_id)).Nodup ∧
    ∃ c ∈ (ChainGraph.build ancestorsCompatible exampleTaskGraph).chain_nodes,
      (ChainGraph.build ancestorsCompatible exampleTaskGraph).ChainNode4TaskNode ⟨3, 0, 0, 0⟩ =
        some c ∧
      (⟨3, 0, 0, 0⟩ : TaskNode) ∈ c.TaskNodes :=
  ⟨by decide,
    (ChainGraph_partition ancestorsCompatible exampleTaskGraph (by decide)).1 ⟨3, 0, 0, 0⟩
      (by decide)⟩

end oneflow
